import Mathlib

/-!
Verification development for the ImageToParticle repository.

We shallowly embed the repository's particle-extraction pipeline
(`src/utils/particleUtils.ts`), its color utilities and simulation-engine
helpers (`src/components/ParticlePreview.tsx`), and the exported-code
helpers (`src/utils/codeGenerator.ts`) as executable Lean definitions over
exact rational arithmetic, and prove the specification's claims about them.

Modelling conventions (applied uniformly):
* JavaScript numbers are modelled as `ℚ` (positions, velocities, color
  math) or `ℕ`/`ℤ` (pixel bytes, indices, rounded channels); overflow does
  not occur in any modelled computation.
* `NaN` values arising from failed `parseInt` calls are modelled as `none`
  in `Option`-typed channels; `x < y` with a `NaN` operand is `false`.
* `Math.sqrt` is applied by the source only to operands of comparisons
  (`dist < minDist`); since `Real.sqrt` is strictly monotone on
  nonnegatives, we compare squared distances instead, which preserves
  every comparison result exactly.
* Out-of-range typed-array reads (`undefined`) are modelled with `List.getD`
  and a default that reproduces the source's observable behaviour at that
  read (e.g. mask reads use default 255, so out-of-range means "unmasked",
  exactly as `undefined < 128` is `false` in JS).
* A JS `Array`/`Uint8ClampedArray` is a `List`; `Math.random()` results are
  supplied as an explicit stream `ℕ → ℚ` of values in `[0,1)`, consumed in
  the deterministic order the source consumes them.
-/

/-- The floor of a rational, as an executable definition (`Int.fdiv`
kernel-reduces where `Int.floor`'s instance path does not); proved equal
to `⌊·⌋` in `ratFloor_eq_floor`. -/
def ratFloor (q : ℚ) : ℤ := Int.fdiv q.num (q.den : ℤ)

/-- `Math.round` (JS rounds half toward +∞): `⌊x + 1/2⌋`. -/
def jsRound (x : ℚ) : ℤ := ratFloor (x + 1/2)

/-- Truncation toward zero, as JS `%`'s implicit quotient uses. -/
def jsTrunc (q : ℚ) : ℤ := if 0 ≤ q then ratFloor q else -ratFloor (-q)

/-- JS remainder operator `a % n` (sign follows the dividend). -/
def jsMod (a n : ℚ) : ℚ := a - n * jsTrunc (a / n)

/-- Value of a decimal-digit character. -/
def digitVal (c : Char) : ℕ := c.toNat - 48

/-- Is this an ASCII decimal digit (regexp `\d`)? -/
def isDigitChar (c : Char) : Bool := 48 ≤ c.toNat && c.toNat ≤ 57

/-- Hexadecimal value of a character, if it is a hex digit. -/
def hexVal (c : Char) : Option ℕ :=
  if 48 ≤ c.toNat && c.toNat ≤ 57 then some (c.toNat - 48)
  else if 97 ≤ c.toNat && c.toNat ≤ 102 then some (c.toNat - 87)
  else if 65 ≤ c.toNat && c.toNat ≤ 70 then some (c.toNat - 55)
  else none

/-- Accumulate the maximal leading run of hex digits. -/
def hexAccum : List Char → ℕ → ℕ
  | [], acc => acc
  | c :: rest, acc =>
    match hexVal c with
    | some v => hexAccum rest (acc * 16 + v)
    | none => acc

/-- `parseInt(s, 16)` on the strings this code passes it (slices of user
color strings): parses the maximal leading run of hex digits, `none` (NaN)
if the string does not start with one. -/
def parseIntHex (s : String) : Option ℕ :=
  match s.data with
  | [] => none
  | c :: rest =>
    match hexVal c with
    | some v => some (hexAccum rest v)
    | none => none

/-- All maximal runs of decimal digits, as numbers, in order (accumulator
`cur` holds the value of the run currently being read):
the semantics of `s.match(/\d+/g)` followed by `parseInt` on each match. -/
def digitRunsAux : List Char → Option ℕ → List ℕ
  | [], none => []
  | [], some cur => [cur]
  | c :: rest, none =>
    if isDigitChar c then digitRunsAux rest (some (digitVal c))
    else digitRunsAux rest none
  | c :: rest, some cur =>
    if isDigitChar c then digitRunsAux rest (some (cur * 10 + digitVal c))
    else cur :: digitRunsAux rest none

def digitRuns (s : String) : List ℕ := digitRunsAux s.data none

/-- `s.slice(a, b)` for `0 ≤ a ≤ b` (the only way the source calls it). -/
def strSlice (s : String) (a b : ℕ) : String := ⟨(s.data.drop a).take (b - a)⟩

/-- `String.prototype.startsWith`, on the character lists. -/
def strStartsWith (s pre : String) : Bool := List.isPrefixOf pre.data s.data

/-- A possibly-NaN JS integer channel. -/
abbrev JChan := Option ℤ

/-- The white triple the parsers fall back to. -/
def whiteRGB : JChan × JChan × JChan := (some 255, some 255, some 255)

/-- `parseColorToRGB` from `src/components/ParticlePreview.tsx` (also
emitted verbatim by the code generator): `"rgb"`-prefixed strings are
mined for digit runs; otherwise `"#"`-prefixed strings are sliced as hex;
otherwise white. A missing digit run / failed hex parse is NaN (`none`). -/
def parseColorToRGB (color : String) : JChan × JChan × JChan :=
  let hashBranch :=
    if strStartsWith color "#" then
      let hex := strSlice color 1 color.length
      ((parseIntHex (strSlice hex 0 2)).map Int.ofNat,
       (parseIntHex (strSlice hex 2 4)).map Int.ofNat,
       (parseIntHex (strSlice hex 4 6)).map Int.ofNat)
    else whiteRGB
  if strStartsWith color "rgb" then
    match digitRuns color with
    | [] => hashBranch
    | n :: rest =>
      (some (Int.ofNat n), (rest.get? 0).map Int.ofNat, (rest.get? 1).map Int.ofNat)
  else hashBranch

/-- `parseColor` from `src/utils/particleUtils.ts`: `"#"`-prefixed strings
are sliced as hex; otherwise any string containing digit runs yields the
first three runs; otherwise white. -/
def parseColor (color : String) : JChan × JChan × JChan :=
  if strStartsWith color "#" then
    let hex := strSlice color 1 color.length
    ((parseIntHex (strSlice hex 0 2)).map Int.ofNat,
     (parseIntHex (strSlice hex 2 4)).map Int.ofNat,
     (parseIntHex (strSlice hex 4 6)).map Int.ofNat)
  else
    match digitRuns color with
    | [] => whiteRGB
    | n :: rest =>
      (some (Int.ofNat n), (rest.get? 0).map Int.ofNat, (rest.get? 1).map Int.ofNat)

/-- `rgbToHsl` from `src/components/ParticlePreview.tsx` (and emitted
verbatim by the code generator). The JS `switch (max)` tries `case r`
first, then `case g`, then `case b`; ties therefore resolve to the
earliest matching channel, which the nested `if` mirrors. -/
def rgbToHsl (r g b : ℚ) : ℚ × ℚ × ℚ :=
  let r' := r / 255
  let g' := g / 255
  let b' := b / 255
  let M := max r' (max g' b')
  let m := min r' (min g' b')
  let l := (M + m) / 2
  if M = m then (0, 0, l)
  else
    let d := M - m
    let s := if l > 1/2 then d / (2 - M - m) else d / (M + m)
    let h :=
      if M = r' then ((g' - b') / d + (if g' < b' then (6 : ℚ) else 0)) / 6
      else if M = g' then ((b' - r') / d + 2) / 6
      else ((r' - g') / d + 4) / 6
    (h, s, l)

/-- The `hue2rgb` closure inside `hslToRgb`. The source performs two
independent wrap checks (`if (t < 0) t += 1; if (t > 1) t -= 1;`),
modelled by the two sequential `let`s. -/
def hue2rgb (p q t0 : ℚ) : ℚ :=
  let t1 := if t0 < 0 then t0 + 1 else t0
  let t := if t1 > 1 then t1 - 1 else t1
  if t < 1/6 then p + (q - p) * 6 * t
  else if t < 1/2 then q
  else if t < 2/3 then p + (q - p) * (2/3 - t) * 6
  else p

/-- `hslToRgb` from `src/components/ParticlePreview.tsx`. -/
def hslToRgb (h s l : ℚ) : ℤ × ℤ × ℤ :=
  if s = 0 then (jsRound (l * 255), jsRound (l * 255), jsRound (l * 255))
  else
    let q := if l < 1/2 then l * (1 + s) else l + s - l * s
    let p := 2 * l - q
    (jsRound (hue2rgb p q (h + 1/3) * 255),
     jsRound (hue2rgb p q h * 255),
     jsRound (hue2rgb p q (h - 1/3) * 255))

/-- Render one channel of a JS `rgb(...)` template. A `NaN` channel prints
as `"NaN"`; integral values print as integers. (A non-integral channel can
arise only in the `darken` branch with a fractional factor; JS would print
its decimal expansion, which no claim exercises.) -/
def chanStr : Option ℚ → String
  | none => "NaN"
  | some v => if v.den = 1 then toString v.num else toString v

/-- The template `` `rgb(${a},${b},${c})` ``. -/
def rgbStr3 (a b c : Option ℚ) : String :=
  "rgb(" ++ chanStr a ++ "," ++ chanStr b ++ "," ++ chanStr c ++ ")"

inductive VelocityColorMode
  | brighten
  | darken
  | hueShift
  | saturation
  | rainbow
deriving DecidableEq

/-- One channel of the `brighten` branch: `Math.round(r + (tr - r) * t)`;
NaN in either input propagates. -/
def brightenChan (c tr : JChan) (t : ℚ) : Option ℚ :=
  match c, tr with
  | some c, some tr => some ((jsRound ((c : ℚ) + ((tr : ℚ) - (c : ℚ)) * t) : ℤ) : ℚ)
  | _, _ => none

/-- One channel of the `darken` branch: `Math.max(0, c - factor)`;
`Math.max(0, NaN)` is NaN. -/
def darkenChan (c : JChan) (factor : ℚ) : Option ℚ :=
  c.map (fun c => max 0 ((c : ℚ) - factor))

/-- The `brighten` branch shared by the live engine and the exported code. -/
def brightenShift (rgb tgt : JChan × JChan × JChan) (factor : ℚ) : String :=
  let t := min (factor / 100) 1
  rgbStr3 (brightenChan rgb.1 tgt.1 t) (brightenChan rgb.2.1 tgt.2.1 t)
    (brightenChan rgb.2.2 tgt.2.2 t)

/-- The `darken` branch shared by the live engine and the exported code. -/
def darkenShift (rgb : JChan × JChan × JChan) (factor : ℚ) : String :=
  rgbStr3 (darkenChan rgb.1 factor) (darkenChan rgb.2.1 factor) (darkenChan rgb.2.2 factor)

/-- Render an `hslToRgb` result through the `rgb(...)` template. -/
def hslRender (t : ℤ × ℤ × ℤ) : String :=
  rgbStr3 (some (t.1 : ℚ)) (some (t.2.1 : ℚ)) (some (t.2.2 : ℚ))

/-- The `hue-shift` branch shared by the live engine and the exported code.
When any parsed channel is NaN, every intermediate of `rgbToHsl`/`hslToRgb`
that reaches the output is NaN in JS (p and q are NaN regardless of h), so
the result is exactly `"rgb(NaN,NaN,NaN)"`, which the catch-all models. -/
def hueShiftShift (rgb : JChan × JChan × JChan) (factor : ℚ) : String :=
  match rgb with
  | (some r, some g, some b) =>
    let hsl := rgbToHsl (r : ℚ) (g : ℚ) (b : ℚ)
    hslRender (hslToRgb (jsMod (hsl.1 + factor * (1/100)) 1) hsl.2.1 hsl.2.2)
  | _ => rgbStr3 none none none

/-- The `saturation` branch shared by the live engine and the exported
code; NaN handling as in `hueShiftShift`. -/
def saturationShift (rgb : JChan × JChan × JChan) (factor : ℚ) : String :=
  match rgb with
  | (some r, some g, some b) =>
    let hsl := rgbToHsl (r : ℚ) (g : ℚ) (b : ℚ)
    hslRender (hslToRgb hsl.1 (min 1 (hsl.2.1 + factor * (1/100))) hsl.2.2)
  | _ => rgbStr3 none none none

/-- `shiftColorByVelocity` of the live engine
(`src/components/ParticlePreview.tsx`, lines 82-114). Its `switch` has
cases for brighten / darken / hue-shift / saturation only; `"rainbow"`
falls through to `default: return color`, leaving the color unchanged. -/
def shiftColorByVelocity (color : String) (velocity intensity : ℚ)
    (mode : VelocityColorMode) (targetColor : String) : String :=
  let rgb := parseColorToRGB color
  let factor := min (velocity * intensity * 10) 100
  match mode with
  | .brighten => brightenShift rgb (parseColorToRGB targetColor) factor
  | .darken => darkenShift rgb factor
  | .hueShift => hueShiftShift rgb factor
  | .saturation => saturationShift rgb factor
  | .rainbow => color

/-- The exported component's `particleHueOffsets` WeakMap, modelled as an
association list keyed by a particle identifier. -/
abbrev HueOffsets := List (ℕ × ℚ)

def hueGet (m : HueOffsets) (k : ℕ) : Option ℚ :=
  (m.find? (fun e => e.1 = k)).map (fun e => e.2)

def hueSet (m : HueOffsets) (k : ℕ) (v : ℚ) : HueOffsets :=
  match m with
  | [] => [(k, v)]
  | e :: rest => if e.1 = k then (k, v) :: rest else e :: hueSet rest k v

/-- `shiftColorByVelocity` as emitted into the exported component by
`generateHelperFunctions` (`src/utils/codeGenerator.ts`, template lines
142-182). Unlike the live engine's version it takes a `particleRef` and
implements a `rainbow` case with a per-particle persisted hue offset.
`particleHueOffsets.get(particleRef) || Math.random()` treats a stored
offset of `0` as absent (falsy); `Math.random()` and `performance.now()`
are supplied as the explicit arguments `freshRandom` and `nowMs`. -/
def shiftColorByVelocityExport (color : String) (velocity intensity : ℚ)
    (mode : VelocityColorMode) (targetColor : String) (particleRef : Option ℕ)
    (offsets : HueOffsets) (freshRandom nowMs : ℚ) : String × HueOffsets :=
  let rgb := parseColorToRGB color
  let factor := min (velocity * intensity * 10) 100
  match mode with
  | .brighten => (brightenShift rgb (parseColorToRGB targetColor) factor, offsets)
  | .darken => (darkenShift rgb factor, offsets)
  | .hueShift => (hueShiftShift rgb factor, offsets)
  | .saturation => (saturationShift rgb factor, offsets)
  | .rainbow =>
    if velocity < 1/10 then (color, offsets)
    else
      match particleRef with
      | some pid =>
        let h0 :=
          match hueGet offsets pid with
          | some v => if v = 0 then freshRandom else v
          | none => freshRandom
        let h1 := jsMod (h0 + velocity * intensity * (2/100)) 1
        (hslRender (hslToRgb h1 1 (1/2)), hueSet offsets pid h1)
      | none =>
        (hslRender (hslToRgb (jsMod (nowMs * (1/1000) * intensity + velocity * (1/10)) 1) 1 (1/2)),
         offsets)

/-- The image buffer handed to the extractor: RGBA bytes in raster order. -/
structure ImageData where
  width : ℕ
  height : ℕ
  pixels : List ℕ
deriving DecidableEq

/-- Squared Euclidean color distance. The source's `colorDistance` takes
`Math.sqrt` of this; it is used only in `<` comparisons, which the square
preserves (monotonicity of the square root on nonnegatives). -/
def colorDistSq (c1 c2 : ℤ × ℤ × ℤ) : ℤ :=
  (c1.1 - c2.1) ^ 2 + (c1.2.1 - c2.2.1) ^ 2 + (c1.2.2 - c2.2.2) ^ 2

/-- Pixel sampling of `quantizeColors`: every 40th byte position
(`i += 4 * 10`) whose alpha byte exceeds 128. -/
def sampledColors (pixels : List ℕ) : List (ℤ × ℤ × ℤ) :=
  (List.range ((pixels.length + 39) / 40)).filterMap (fun j =>
    let i := j * 40
    if 128 < pixels.getD (i + 3) 0 then
      some ((pixels.getD i 0 : ℤ), (pixels.getD (i + 1) 0 : ℤ), (pixels.getD (i + 2) 0 : ℤ))
    else none)

/-- Index of the closest centroid: `minDist` starts at `Infinity`
(modelled `none`), strict `<` keeps the earliest index on ties,
`closestIdx` starts at 0. -/
def closestIdxGo (c : ℤ × ℤ × ℤ) : List (ℤ × ℤ × ℤ) → ℕ → Option ℤ → ℕ → ℕ
  | [], _, _, best => best
  | d :: rest, i, minD, best =>
    let dist := colorDistSq c d
    let upd : Bool := match minD with
      | none => true
      | some m => decide (dist < m)
    if upd then closestIdxGo c rest (i + 1) (some dist) i
    else closestIdxGo c rest (i + 1) minD best

def closestIdx (cs : List (ℤ × ℤ × ℤ)) (c : ℤ × ℤ × ℤ) : ℕ :=
  closestIdxGo c cs 0 none 0

/-- Append an element to the `i`-th bucket (`clusters[closestIdx].push`). -/
def pushAt : List (List α) → ℕ → α → List (List α)
  | [], _, _ => []
  | l :: rest, 0, a => (l ++ [a]) :: rest
  | l :: rest, n + 1, a => l :: pushAt rest n a

/-- `Math.round` of the per-channel mean of a nonempty cluster. -/
def avgColor (cluster : List (ℤ × ℤ × ℤ)) : ℤ × ℤ × ℤ :=
  let n := cluster.length
  let s := cluster.foldl (fun acc c => (acc.1 + c.1, acc.2.1 + c.2.1, acc.2.2 + c.2.2))
    ((0 : ℤ), (0 : ℤ), (0 : ℤ))
  (jsRound ((s.1 : ℚ) / (n : ℚ)), jsRound ((s.2.1 : ℚ) / (n : ℚ)), jsRound ((s.2.2 : ℚ) / (n : ℚ)))

/-- One k-means iteration of `quantizeColors`. Centroids live in
`Option`: after an update, an empty cluster keeps `centroids[i]`, which is
`undefined` (`none`) when `i` is beyond the previous centroid list — JS's
`centroids.slice(0, clusterCount)` is short when fewer colors were
sampled. The next iteration's `colorDistance(color, centroids[i])` then
reads a field of `undefined` and throws, modelled as `Except.error`. -/
def kmeansStep (clusterCount : ℕ) (colors : List (ℤ × ℤ × ℤ))
    (cs : List (Option (ℤ × ℤ × ℤ))) : Except Unit (List (Option (ℤ × ℤ × ℤ))) :=
  if cs.any (fun c => c.isNone) then .error ()
  else
    let cs' := cs.filterMap id
    let clusters := colors.foldl (fun cl c => pushAt cl (closestIdx cs' c) c)
      (List.replicate clusterCount [])
    .ok (clusters.enum.map (fun p =>
      match p.2 with
      | [] => cs.getD p.1 none
      | cluster => some (avgColor cluster)))

def kmeansIter (clusterCount : ℕ) (colors : List (ℤ × ℤ × ℤ)) :
    ℕ → List (Option (ℤ × ℤ × ℤ)) → Except Unit (List (Option (ℤ × ℤ × ℤ)))
  | 0, cs => .ok cs
  | n + 1, cs =>
    match kmeansStep clusterCount colors cs with
    | .error e => .error e
    | .ok cs' => kmeansIter clusterCount colors n cs'

/-- The template `` `rgb(${c[0]},${c[1]},${c[2]})` `` on an integer triple. -/
def rgbString (c : ℤ × ℤ × ℤ) : String :=
  "rgb(" ++ toString c.1 ++ "," ++ toString c.2.1 ++ "," ++ toString c.2.2 ++ ")"

/-- `quantizeColors` from `src/utils/particleUtils.ts`: sample, then 10
k-means iterations seeded with the first `clusterCount` sampled colors.
`Except.error` models the TypeError paths: `clusters[0].push` on an empty
clusters array (`clusterCount = 0` with sampled colors present), and
reading a channel of an `undefined` centroid (fewer sampled colors than
`clusterCount`). -/
def quantizeColors (img : ImageData) (clusterCount : ℕ) : Except Unit (List String) :=
  let colors := sampledColors img.pixels
  if colors.isEmpty then .ok ["#ffffff"]
  else if clusterCount = 0 then .error ()
  else
    match kmeansIter clusterCount colors 10 ((colors.take clusterCount).map some) with
    | .error e => .error e
    | .ok cs =>
      if cs.any (fun c => c.isNone) then .error ()
      else .ok ((cs.filterMap id).map rgbString)

/-- Distance used by `findNearestColor`: NaN (`none`) when the palette
entry parsed to a NaN channel; `NaN < minDist` is `false` in JS. -/
def jsColorDistSq (c1 : ℤ × ℤ × ℤ) (c2 : JChan × JChan × JChan) : Option ℤ :=
  match c2 with
  | (some a, some b, some c) => some (colorDistSq c1 (a, b, c))
  | _ => none

/-- Loop of `findNearestColor`: `minDist` starts at `Infinity` (`none`),
`nearest` starts at `palette[0]`, strict `<` updates. -/
def findNearestGo (rgb : ℤ × ℤ × ℤ) : Option ℤ → String → List String → String
  | _, best, [] => best
  | minD, best, c :: rest =>
    let d := jsColorDistSq rgb (parseColor c)
    let upd : Bool := match d, minD with
      | none, _ => false
      | some _, none => true
      | some dv, some mv => decide (dv < mv)
    if upd then findNearestGo rgb d c rest else findNearestGo rgb minD best rest

def findNearestColor (rgb : ℤ × ℤ × ℤ) (palette : List String) : String :=
  findNearestGo rgb none (palette.headD "undefined") palette

inductive ColorFilter
  | grayscale
  | sepia
  | inverted
  | saturated
  | desaturated
  | warm
  | cool
  | vintage
  | none
deriving DecidableEq

/-- `applyColorFilter` from `src/utils/particleUtils.ts`, on byte channels. -/
def applyColorFilter (r g b : ℕ) (filter : ColorFilter) : ℤ × ℤ × ℤ :=
  match filter with
  | .grayscale =>
    let gray := jsRound ((299/1000) * (r : ℚ) + (587/1000) * (g : ℚ) + (114/1000) * (b : ℚ))
    (gray, gray, gray)
  | .sepia =>
    (min 255 (jsRound ((393/1000) * (r : ℚ) + (769/1000) * (g : ℚ) + (189/1000) * (b : ℚ))),
     min 255 (jsRound ((349/1000) * (r : ℚ) + (686/1000) * (g : ℚ) + (168/1000) * (b : ℚ))),
     min 255 (jsRound ((272/1000) * (r : ℚ) + (534/1000) * (g : ℚ) + (131/1000) * (b : ℚ))))
  | .inverted => (255 - (r : ℤ), 255 - (g : ℤ), 255 - (b : ℤ))
  | .saturated =>
    let gray : ℚ := (299/1000) * (r : ℚ) + (587/1000) * (g : ℚ) + (114/1000) * (b : ℚ)
    (min 255 (max 0 (jsRound (gray + (3/2) * ((r : ℚ) - gray)))),
     min 255 (max 0 (jsRound (gray + (3/2) * ((g : ℚ) - gray)))),
     min 255 (max 0 (jsRound (gray + (3/2) * ((b : ℚ) - gray)))))
  | .desaturated =>
    let gray : ℚ := (299/1000) * (r : ℚ) + (587/1000) * (g : ℚ) + (114/1000) * (b : ℚ)
    (jsRound (gray + (1/2) * ((r : ℚ) - gray)),
     jsRound (gray + (1/2) * ((g : ℚ) - gray)),
     jsRound (gray + (1/2) * ((b : ℚ) - gray)))
  | .warm => (min 255 ((r : ℤ) + 20), (g : ℤ), max 0 ((b : ℤ) - 20))
  | .cool => (max 0 ((r : ℤ) - 20), (g : ℤ), min 255 ((b : ℤ) + 20))
  | .vintage =>
    let s0 := min 255 (jsRound ((393/1000) * (r : ℚ) + (769/1000) * (g : ℚ) + (189/1000) * (b : ℚ)))
    let s1 := min 255 (jsRound ((349/1000) * (r : ℚ) + (686/1000) * (g : ℚ) + (168/1000) * (b : ℚ)))
    let s2 := min 255 (jsRound ((272/1000) * (r : ℚ) + (534/1000) * (g : ℚ) + (131/1000) * (b : ℚ)))
    (min 255 (s0 + 10), s1, max 0 (s2 - 15))
  | .none => ((r : ℤ), (g : ℤ), (b : ℤ))

inductive EditType
  | add
  | delete
  | modify
deriving DecidableEq

/-- A manual particle edit (`ParticleEdit` in `src/types/index.ts`). -/
structure ParticleEdit where
  type : EditType
  x : ℚ
  y : ℚ
  color : Option String := Option.none
  radius : Option ℚ := Option.none
  optionalMasks : Option (List String) := Option.none
deriving DecidableEq

/-- A named optional mask; `data` is `null` until first painted. -/
structure OptionalMask where
  slug : String
  data : Option (List ℕ)
deriving DecidableEq

/-- The extraction-relevant fields of `ParticleConfig`
(the destructuring at `particleUtils.ts` line 81). -/
structure ParticleConfig where
  resolution : ℤ
  alphaThreshold : ℕ
  maxParticles : ℕ
  useOriginalColors : Bool
  customColors : List String
  colorClustering : Bool
  clusterCount : ℕ
  colorFilter : ColorFilter
deriving DecidableEq

/-- An extracted particle record (`ParticleData` in `src/types/index.ts`);
`optionalMasks` is `undefined` (`none`) rather than an empty list. -/
structure ParticleData where
  x : ℚ
  y : ℚ
  color : String
  masked : Bool
  optionalMasks : Option (List String)
deriving DecidableEq

def defaultParticle : ParticleData :=
  { x := 0, y := 0, color := "", masked := false, optionalMasks := Option.none }

/-- `edit.radius || 15`: both `undefined` and `0` are falsy in JS. -/
def effectiveRadius (e : ParticleEdit) : ℚ :=
  match e.radius with
  | some r => if r = 0 then 15 else r
  | none => 15

/-- The delete-zone test `dx*dx + dy*dy < radius*radius`. -/
def inDeleteZone (e : ParticleEdit) (px py : ℚ) : Bool :=
  let dx := px - e.x
  let dy := py - e.y
  let r := effectiveRadius e
  decide (dx * dx + dy * dy < r * r)

/-- `gap = Math.max(1, resolution)`. -/
def gapOf (cfg : ParticleConfig) : ℕ := (max 1 cfg.resolution).toNat

/-- Loop positions `start, start+gap, ...` while `< stop`. -/
def stepPositions (start : ℕ) (stop : ℤ) (gap : ℕ) : List ℕ :=
  (List.range (if stop ≤ (start : ℤ) then 0 else (((stop - start).toNat + gap - 1) / gap))).map
    (fun i => start + gap * i)

/-- The raster-scan sample points, in loop order (outer `y`, inner `x`),
offset by `halfGap` from each edge. -/
def rasterPairs (img : ImageData) (gap : ℕ) : List (ℕ × ℕ) :=
  let halfGap := gap / 2
  (stepPositions halfGap ((img.height : ℤ) - halfGap) gap).flatMap (fun y =>
    (stepPositions halfGap ((img.width : ℤ) - halfGap) gap).map (fun x => (x, y)))

/-- `customColors[Math.floor(Math.random() * customColors.length)]`; the
`Math.random()` draw is the argument `rnd`. -/
def pickCustomColor (colors : List String) (rnd : ℚ) : String :=
  colors.getD (Int.toNat (ratFloor (rnd * (colors.length : ℚ)))) "undefined"

/-- A mask-bitmap read `data[index] < 128`; an out-of-range read is
`undefined < 128 = false`, which default 255 reproduces. -/
def maskReadLt128 (data : List ℕ) (index : ℕ) : Bool :=
  decide (data.getD index 255 < 128)

/-- One body of the raster-scan loop of `extractParticleData`
(`particleUtils.ts` lines 101-162): returns the pushed particle, or `none`
when the pixel is skipped (alpha below threshold or inside a delete zone). -/
def sampleAt (img : ImageData) (cfg : ParticleConfig) (mask : Option (List ℕ))
    (opts : List OptionalMask) (deletes : List ParticleEdit) (pal : Option (List String))
    (rnd : ℚ) (x y : ℕ) : Option ParticleData :=
  let index := (y * img.width + x) * 4
  let r := img.pixels.getD index 0
  let g := img.pixels.getD (index + 1) 0
  let b := img.pixels.getD (index + 2) 0
  let a := img.pixels.getD (index + 3) 0
  if a < cfg.alphaThreshold then Option.none
  else if deletes.any (fun e => inDeleteZone e (x : ℚ) (y : ℚ)) then Option.none
  else
    let isMasked := match mask with
      | some m => maskReadLt128 m index
      | none => false
    let particleMasks := (opts.filter (fun mk =>
        match mk.data with
        | some d => maskReadLt128 d index
        | none => false)).map (fun mk => mk.slug)
    let frgb := applyColorFilter r g b cfg.colorFilter
    let color :=
      if cfg.useOriginalColors then
        match pal with
        | some palette => findNearestColor frgb palette
        | none => rgbString frgb
      else pickCustomColor cfg.customColors rnd
    some { x := (x : ℚ), y := (y : ℚ), color := color, masked := isMasked,
           optionalMasks := if particleMasks.isEmpty then Option.none else some particleMasks }

/-- The raster scan, threading the count `k` of particles pushed so far:
the `k`-th surviving pixel consumes the `k`-th `Math.random()` draw (a
draw happens exactly once per pushed particle, in the custom-colors
branch). -/
def rasterGo (img : ImageData) (cfg : ParticleConfig) (mask : Option (List ℕ))
    (opts : List OptionalMask) (deletes : List ParticleEdit) (pal : Option (List String))
    (rand : ℕ → ℚ) : List (ℕ × ℕ) → ℕ → List ParticleData
  | [], _ => []
  | (x, y) :: rest, k =>
    match sampleAt img cfg mask opts deletes pal (rand k) x y with
    | none => rasterGo img cfg mask opts deletes pal rand rest k
    | some p => p :: rasterGo img cfg mask opts deletes pal rand rest (k + 1)

/-- The image-derived (raster-sampled) candidate particles. -/
def rasterParticles (img : ImageData) (cfg : ParticleConfig) (mask : Option (List ℕ))
    (opts : List OptionalMask) (deletes : List ParticleEdit) (pal : Option (List String))
    (rand : ℕ → ℚ) : List ParticleData :=
  rasterGo img cfg mask opts deletes pal rand (rasterPairs img (gapOf cfg)) 0

/-- The particle pushed for a surviving `"add"` edit
(`particleUtils.ts` lines 180-186): `masked` is literally `false`;
`edit.color || "#ffffff"` treats the empty string as absent. -/
def addedParticle (e : ParticleEdit) : ParticleData :=
  { x := e.x, y := e.y,
    color := match e.color with
      | some c => if c = "" then "#ffffff" else c
      | none => "#ffffff",
    masked := false,
    optionalMasks := e.optionalMasks }

/-- The `"add"`-edit candidates, in edit order, each still subject to the
delete zones. -/
def addedParticles (deletes adds : List ParticleEdit) : List ParticleData :=
  (adds.filter (fun e => !(deletes.any (fun d => inDeleteZone d e.x e.y)))).map addedParticle

/-- The full candidate list `potentialParticles`: raster-sampled particles
followed by surviving add-edit particles. -/
def potentialParticles (img : ImageData) (cfg : ParticleConfig) (mask : Option (List ℕ))
    (opts : List OptionalMask) (edits : List ParticleEdit) (rand : ℕ → ℚ)
    (pal : Option (List String)) : List ParticleData :=
  let deletes := edits.filter (fun e => decide (e.type = EditType.delete))
  rasterParticles img cfg mask opts deletes pal rand ++
    addedParticles deletes (edits.filter (fun e => decide (e.type = EditType.add)))

/-- The `maxParticles` cap (`particleUtils.ts` lines 189-200): when over
the limit, take `maxParticles` entries at indices
`Math.floor(i * (length / maxParticles))`; otherwise return the candidates
unmodified. -/
def resampleParticles (ps : List ParticleData) (maxParticles : ℕ) : List ParticleData :=
  if maxParticles < ps.length then
    (List.range maxParticles).map (fun (i : ℕ) =>
      ps.getD (Int.toNat (ratFloor ((i : ℚ) * ((ps.length : ℚ) / (maxParticles : ℚ))))) defaultParticle)
  else ps

/-- The palette computed up front when `useOriginalColors && colorClustering`
(`particleUtils.ts` lines 84-87); `Except.error` propagates a
`quantizeColors` TypeError. -/
def paletteE (img : ImageData) (cfg : ParticleConfig) : Except Unit (Option (List String)) :=
  if cfg.useOriginalColors && cfg.colorClustering then
    match quantizeColors img cfg.clusterCount with
    | .error e => .error e
    | .ok pal => .ok (some pal)
  else .ok Option.none

/-- `extractParticleData` from `src/utils/particleUtils.ts`. The optional
JS parameters `maskData? / optionalMasks? / particleEdits?` are supplied
as `Option (List ℕ)` and plain lists (the source normalizes a missing edit
list to `[]` via `?.filter ... || []`). -/
def extractParticleData (img : ImageData) (cfg : ParticleConfig) (mask : Option (List ℕ))
    (opts : List OptionalMask) (edits : List ParticleEdit) (rand : ℕ → ℚ) :
    Except Unit (List ParticleData) :=
  match paletteE img cfg with
  | .error e => .error e
  | .ok pal => .ok (resampleParticles (potentialParticles img cfg mask opts edits rand pal) cfg.maxParticles)

/-- Live position/velocity state of one particle along the spring-return
path of the physics loop. -/
structure PhysParticle where
  x : ℚ
  y : ℚ
  vx : ℚ
  vy : ℚ
deriving DecidableEq

/-- One physics tick of `animate` (`ParticlePreview.tsx` lines 421-436)
for a particle with mouse interaction inapplicable, idle animation off and
bounce inactive: `returnSpeed = config.returnSpeed * config.particleSpeed`,
then `v += (origin - pos) * returnSpeed; v *= friction; pos += v`. -/
def springTick (originX originY returnSpeed particleSpeed friction : ℚ)
    (p : PhysParticle) : PhysParticle :=
  let rs := returnSpeed * particleSpeed
  let vx1 := (p.vx + (originX - p.x) * rs) * friction
  let vy1 := (p.vy + (originY - p.y) * rs) * friction
  { x := p.x + vx1, y := p.y + vy1, vx := vx1, vy := vy1 }

/-- Squared Euclidean distance of the particle to its origin. -/
def distSqToOrigin (originX originY : ℚ) (p : PhysParticle) : ℚ :=
  (p.x - originX) ^ 2 + (p.y - originY) ^ 2

/-- `n` repetitions of the spring tick. -/
def springIter (originX originY returnSpeed particleSpeed friction : ℚ) (n : ℕ)
    (p : PhysParticle) : PhysParticle :=
  (springTick originX originY returnSpeed particleSpeed friction)^[n] p

/-- The inductive invariant of the damped spring: on each axis the
velocity opposes the displacement and does not exceed it in magnitude. -/
def SpringInv (originX originY : ℚ) (p : PhysParticle) : Prop :=
  ((0 ≤ p.x - originX ∧ -(p.x - originX) ≤ p.vx ∧ p.vx ≤ 0) ∨
    (p.x - originX ≤ 0 ∧ 0 ≤ p.vx ∧ p.vx ≤ -(p.x - originX))) ∧
  ((0 ≤ p.y - originY ∧ -(p.y - originY) ≤ p.vy ∧ p.vy ≤ 0) ∨
    (p.y - originY ≤ 0 ∧ 0 ≤ p.vy ∧ p.vy ≤ -(p.y - originY)))

inductive ParticleShape
  | circle
  | square
  | triangle
  | diamond
  | star
  | heart
deriving DecidableEq

/-- The adaptive render-quality state: `qualityModeRef` (`none` =
undecided, `some true` = "squares", `some false` = "circles"),
`slowFrameCountRef` and `activityFrameCountRef`. -/
structure QualityState where
  qualityMode : Option Bool
  slowFrames : ℕ
  activityFrames : ℕ
deriving DecidableEq

/-- State after initialization or after the reset effect
(`ParticlePreview.tsx` lines 169-173). -/
def initQuality : QualityState := ⟨Option.none, 0, 0⟩

/-- What one animation-frame callback observes for the quality controller:
the measured `frameTime`, whether there is activity, and whether
`lastFrameTimeRef.current > 0`. -/
structure FrameObs where
  frameTime : ℚ
  isActive : Bool
  lastFrameTimePos : Bool
deriving DecidableEq

/-- The per-frame quality-measurement block (`ParticlePreview.tsx` lines
286-297): counters advance only while `autoPerformance` is on, the mode is
still undecided, and the frame is active; on the 60th observed frame the
mode locks to "squares" iff `slowFrames / activityFrames > 0.3`. -/
def qualityStep (autoPerformance : Bool) (s : QualityState) (f : FrameObs) : QualityState :=
  if autoPerformance && s.qualityMode.isNone && f.isActive && f.lastFrameTimePos then
    let a := s.activityFrames + 1
    let sl := if 20 < f.frameTime then s.slowFrames + 1 else s.slowFrames
    if 60 ≤ a then
      { qualityMode := some (decide ((3 : ℚ)/10 < (sl : ℚ) / (a : ℚ))),
        slowFrames := sl, activityFrames := a }
    else
      { qualityMode := Option.none, slowFrames := sl, activityFrames := a }
  else s

/-- Run the controller over a sequence of frames. -/
def runQuality (autoPerformance : Bool) (s : QualityState) (l : List FrameObs) : QualityState :=
  l.foldl (qualityStep autoPerformance) s

/-- The shape actually rendered (`ParticlePreview.tsx` lines 464-466):
`"square"` when auto-performance locked to squares, else the configured
shape. -/
def effectiveShape (autoPerformance : Bool) (qm : Option Bool)
    (configShape : ParticleShape) : ParticleShape :=
  if autoPerformance then
    match qm with
    | some true => ParticleShape.square
    | _ => configShape
  else configShape

/-! Concrete instances used by witnesses and counterexamples. -/

/-- A 1×1 fully opaque image. -/
def imgOne : ImageData := ⟨1, 1, [10, 20, 30, 255]⟩

/-- A configuration drawing colors from a two-entry custom palette. -/
def cfgCustomTwo : ParticleConfig :=
  ⟨1, 0, 100, false, ["#000000", "#ffffff"], false, 2, ColorFilter.none⟩

/-- A 4×4 fully opaque image. -/
def imgFour : ImageData := ⟨4, 4, (List.replicate 16 [200, 100, 50, 255]).flatten⟩

/-- Original-colors configuration, no clustering, generous cap. -/
def cfgOrig : ParticleConfig := ⟨1, 0, 100, true, [], false, 2, ColorFilter.none⟩

/-- Same as `cfgOrig` but with `maxParticles = 5`. -/
def cfgCapFive : ParticleConfig := ⟨1, 0, 5, true, [], false, 2, ColorFilter.none⟩

/-- An empty image (no raster candidates). -/
def imgEmpty : ImageData := ⟨0, 0, []⟩

/-- Sixteen "add" edits at x = 0..15. -/
def editsSixteen : List ParticleEdit :=
  (List.range 16).map (fun (i : ℕ) =>
    ⟨EditType.add, (i : ℚ), 0, some "#123456", Option.none, Option.none⟩)

/-- A delete edit centered at (2,2) with stored radius 1. -/
def delTwoTwo : ParticleEdit := ⟨EditType.delete, 2, 2, Option.none, some 1, Option.none⟩

/-- An "add" edit placed at (1,1) carrying a mask slug. -/
def addOneOne : ParticleEdit := ⟨EditType.add, 1, 1, some "#ff0000", Option.none, some ["grp"]⟩

/-- An all-masked interaction-mask bitmap for a 4×4 image. -/
def maskAllFour : List ℕ := List.replicate 64 0

/-- A frame observation that is active and slow (25ms > 20ms). -/
def slowObs : FrameObs := ⟨25, true, true⟩

/-- A frame observation that is active and fast. -/
def fastObs : FrameObs := ⟨10, true, true⟩

/-- Is a frame counted by the quality controller? -/
def isObserved (f : FrameObs) : Bool := f.isActive && f.lastFrameTimePos

/-- Number of slow frames (`frameTime > 20`) in a window. -/
def slowCount (l : List FrameObs) : ℕ := l.countP (fun f => decide (20 < f.frameTime))

/-- Decidable equality for `Except` results. -/
instance {ε α : Type} [DecidableEq ε] [DecidableEq α] : DecidableEq (Except ε α) := fun x y =>
  match x, y with
  | .error a, .error b =>
    if h : a = b then isTrue (by subst h; rfl) else isFalse (fun he => h (by cases he; rfl))
  | .ok a, .ok b =>
    if h : a = b then isTrue (by subst h; rfl) else isFalse (fun he => h (by cases he; rfl))
  | .error _, .ok _ => isFalse (fun he => by cases he)
  | .ok _, .error _ => isFalse (fun he => by cases he)

section

/- Batteries marks the `Rat` field operations `@[irreducible]`; re-enable
definitional unfolding locally so that `decide`/`rfl` can evaluate the
embedded pipeline on the concrete witness inputs. -/
attribute [local semireducible] Rat.add Rat.mul Rat.sub Rat.inv

theorem ratFloor_eq_floor (q : ℚ) : ratFloor q = ⌊q⌋ := by
  rw [Rat.floor_def, ratFloor, Int.fdiv_eq_ediv _ (by positivity)]

/-! Helper lemmas about the hue-offset association list. -/

theorem hueGet_cons (e : ℕ × ℚ) (l : HueOffsets) (q : ℕ) :
    hueGet (e :: l) q = if e.1 = q then some e.2 else hueGet l q := by
  by_cases h : e.1 = q
  · rw [if_pos h]
    simp only [hueGet]
    rw [List.find?_cons_of_pos _ (by simpa using h)]
    rfl
  · rw [if_neg h]
    simp only [hueGet]
    rw [List.find?_cons_of_neg _ (by simpa using h)]

theorem hueGet_hueSet_self (m : HueOffsets) (k : ℕ) (v : ℚ) :
    hueGet (hueSet m k v) k = some v := by
  induction m with
  | nil => simp [hueSet, hueGet, List.find?]
  | cons e rest ih =>
    simp only [hueSet]
    by_cases h : e.1 = k
    · rw [if_pos h, hueGet_cons]
      simp
    · rw [if_neg h, hueGet_cons, if_neg h]
      exact ih

theorem hueGet_hueSet_other (m : HueOffsets) (k q : ℕ) (v : ℚ) (hqk : q ≠ k) :
    hueGet (hueSet m k v) q = hueGet m q := by
  have hkq : k ≠ q := Ne.symm hqk
  induction m with
  | nil => simp [hueSet, hueGet, List.find?, hkq]
  | cons e rest ih =>
    simp only [hueSet]
    by_cases h : e.1 = k
    · rw [if_pos h, hueGet_cons, hueGet_cons, if_neg hkq, if_neg (h ▸ hkq)]
    · rw [if_neg h, hueGet_cons, hueGet_cons]
      by_cases h2 : e.1 = q
      · rw [if_pos h2, if_pos h2]
      · rw [if_neg h2, if_neg h2]
        exact ih

/-- C9 counterexample: `"rgba(40,50,60,0.5)"` is neither of the form
`rgb(r,g,b)` nor `#rrggbb`, yet `parseColorToRGB` returns `(40,50,60)`,
not white: the `"rgb"` prefix check also matches `"rgba"` strings. -/
theorem parseColorToRGB_rgba_not_white :
    parseColorToRGB "rgba(40,50,60,0.5)" = (some 40, some 50, some 60) ∧
    parseColorToRGB "rgba(40,50,60,0.5)" ≠ (some 255, some 255, some 255) := by
  constructor
  · rfl
  · decide

/-- C9 amended: for every input string that starts with neither `"rgb"`
nor `"#"`, `parseColorToRGB` returns exactly white `(255,255,255)`. -/
theorem parseColorToRGB_white_fallback (s : String)
    (h1 : strStartsWith s "rgb" = false) (h2 : strStartsWith s "#" = false) :
    parseColorToRGB s = (some 255, some 255, some 255) := by
  unfold parseColorToRGB
  simp [h1, h2, whiteRGB]

theorem parseColorToRGB_white_fallback_witness :
    (strStartsWith "hello" "rgb" = false) ∧ (strStartsWith "hello" "#" = false) ∧
    parseColorToRGB "hello" = (some 255, some 255, some 255) :=
  ⟨by decide, by decide, parseColorToRGB_white_fallback "hello" (by decide) (by decide)⟩

/-- C8 counterexample: in the live simulation engine
(`ParticlePreview.tsx`), `shiftColorByVelocity` has no `rainbow` case —
the mode falls through to `default: return color` — so rainbow mode
returns the input color unchanged at every velocity; no per-particle hue
offset exists and hues of differently-fast particles cannot diverge. -/
theorem shiftColorByVelocity_rainbow_noop :
    shiftColorByVelocity "rgb(10,20,30)" 5 1 VelocityColorMode.rainbow "#ffffff"
      = "rgb(10,20,30)" ∧
    shiftColorByVelocity "rgb(10,20,30)" 100 1 VelocityColorMode.rainbow "#ffffff"
      = "rgb(10,20,30)" :=
  ⟨rfl, rfl⟩

/-- C8 amended: the exported component's `shiftColorByVelocity` (emitted
by `generateHelperFunctions`) implements rainbow mode: for a particle ref
with a stored nonzero hue offset `h` and velocity ≥ 0.1, the offset
advances to `(h + velocity·intensity·0.02) mod 1`, is persisted keyed by
that particle (other particles' offsets untouched), and the returned color
is `hslToRgb` of the advanced offset at full saturation and half
lightness. -/
theorem shiftColorByVelocityExport_rainbow_advance (color targetColor : String)
    (v i freshRandom nowMs h : ℚ) (pid : ℕ) (offs : HueOffsets)
    (hv : 1/10 ≤ v) (hstored : hueGet offs pid = some h) (hh : h ≠ 0) :
    (shiftColorByVelocityExport color v i VelocityColorMode.rainbow targetColor (some pid)
        offs freshRandom nowMs).1
      = hslRender (hslToRgb (jsMod (h + v * i * (2/100)) 1) 1 (1/2)) ∧
    hueGet (shiftColorByVelocityExport color v i VelocityColorMode.rainbow targetColor (some pid)
        offs freshRandom nowMs).2 pid
      = some (jsMod (h + v * i * (2/100)) 1) ∧
    ∀ q : ℕ, q ≠ pid →
      hueGet (shiftColorByVelocityExport color v i VelocityColorMode.rainbow targetColor (some pid)
          offs freshRandom nowMs).2 q
        = hueGet offs q := by
  refine ⟨?_, ?_, ?_⟩
  · simp only [shiftColorByVelocityExport, hstored, if_neg hh, if_neg (not_lt.mpr hv)]
  · simp only [shiftColorByVelocityExport, hstored, if_neg hh, if_neg (not_lt.mpr hv)]
    exact hueGet_hueSet_self _ _ _
  · intro q hq
    simp only [shiftColorByVelocityExport, hstored, if_neg hh, if_neg (not_lt.mpr hv)]
    exact hueGet_hueSet_other _ _ _ _ hq

theorem shiftColorByVelocityExport_rainbow_witness :
    ((1 : ℚ)/10 ≤ 5) ∧ hueGet [(1, 1/2)] 1 = some (1/2) ∧ ((1 : ℚ)/2 ≠ 0) ∧
    (shiftColorByVelocityExport "x" 5 1 VelocityColorMode.rainbow "#ffffff" (some 1)
        [(1, 1/2)] (1/4) 0).1
      = hslRender (hslToRgb (jsMod ((1/2 : ℚ) + 5 * 1 * (2/100)) 1) 1 (1/2)) :=
  ⟨by norm_num, rfl, by norm_num,
    (shiftColorByVelocityExport_rainbow_advance "x" "#ffffff" 5 1 (1/4) 0 (1/2) 1
      [(1, 1/2)] (by norm_num) rfl (by norm_num)).1⟩

/-- C3 at its failing input: a 1×1 opaque image samples exactly one color;
with `clusterCount = 2` the k-means seed `colors.slice(0, 2)` has length 1,
the first update leaves `centroids[1]` undefined, and the second
iteration's `colorDistance(color, centroids[1])` reads a channel of
`undefined` — a TypeError, modelled as `Except.error`. -/
theorem quantizeColors_short_seed_error :
    quantizeColors imgOne 2 = Except.error () := rfl

/-- When `useOriginalColors` is set, the random draw is never consulted. -/
theorem sampleAt_rand_irrel (img : ImageData) (cfg : ParticleConfig) (mask : Option (List ℕ))
    (opts : List OptionalMask) (deletes : List ParticleEdit) (pal : Option (List String))
    (r1 r2 : ℚ) (x y : ℕ) (h : cfg.useOriginalColors = true) :
    sampleAt img cfg mask opts deletes pal r1 x y = sampleAt img cfg mask opts deletes pal r2 x y := by
  simp only [sampleAt, h, if_true]

/-- The raster scan is independent of the random stream when
`useOriginalColors` is set. -/
theorem rasterGo_rand_irrel (img : ImageData) (cfg : ParticleConfig) (mask : Option (List ℕ))
    (opts : List OptionalMask) (deletes : List ParticleEdit) (pal : Option (List String))
    (r1 r2 : ℕ → ℚ) (h : cfg.useOriginalColors = true) (pairs : List (ℕ × ℕ)) :
    ∀ k, rasterGo img cfg mask opts deletes pal r1 pairs k
      = rasterGo img cfg mask opts deletes pal r2 pairs k := by
  induction pairs with
  | nil => intro k; rfl
  | cons p rest ih =>
    intro k
    obtain ⟨x, y⟩ := p
    simp only [rasterGo]
    rw [sampleAt_rand_irrel img cfg mask opts deletes pal (r1 k) (r2 k) x y h]
    cases sampleAt img cfg mask opts deletes pal (r2 k) x y with
    | none => exact ih k
    | some q => rw [ih (k + 1)]

/-- C1 amended: extraction is a pure function of its inputs for every
configuration with `useOriginalColors = true` — the random stream (the
only call-to-call varying input) is never consulted, so repeated calls
agree exactly. -/
theorem extractParticleData_deterministic (img : ImageData) (cfg : ParticleConfig)
    (mask : Option (List ℕ)) (opts : List OptionalMask) (edits : List ParticleEdit)
    (r1 r2 : ℕ → ℚ) (h : cfg.useOriginalColors = true) :
    extractParticleData img cfg mask opts edits r1 = extractParticleData img cfg mask opts edits r2 := by
  unfold extractParticleData
  cases paletteE img cfg with
  | error e => rfl
  | ok pal =>
    simp only [potentialParticles, rasterParticles]
    rw [rasterGo_rand_irrel img cfg mask opts _ pal r1 r2 h _ 0]

theorem extractParticleData_deterministic_witness :
    cfgOrig.useOriginalColors = true ∧
    extractParticleData imgFour cfgOrig Option.none [] [] (fun _ => 0)
      = extractParticleData imgFour cfgOrig Option.none [] [] (fun _ => 1/2) :=
  ⟨rfl, extractParticleData_deterministic imgFour cfgOrig Option.none [] []
    (fun _ => 0) (fun _ => 1/2) rfl⟩

/-- C1 counterexample: with `useOriginalColors = false` the color of every
raster particle is `customColors[Math.floor(Math.random() * length)]`; two
calls whose `Math.random()` draws are 0 and 1/2 (both legitimate values in
`[0,1)`) return lists differing in the color string. -/
theorem extractParticleData_custom_colors_nondeterministic :
    extractParticleData imgOne cfgCustomTwo Option.none [] [] (fun _ => 0)
      = Except.ok [⟨0, 0, "#000000", false, Option.none⟩] ∧
    extractParticleData imgOne cfgCustomTwo Option.none [] [] (fun _ => 1/2)
      = Except.ok [⟨0, 0, "#ffffff", false, Option.none⟩] ∧
    ([(⟨0, 0, "#000000", false, Option.none⟩ : ParticleData)]
      ≠ [⟨0, 0, "#ffffff", false, Option.none⟩]) ∧
    ((0 : ℚ) ≤ 0 ∧ (0 : ℚ) < 1 ∧ (0 : ℚ) ≤ 1/2 ∧ (1/2 : ℚ) < 1) :=
  ⟨by rfl, by rfl, by decide, by norm_num⟩

/-! Properties of the `maxParticles` resampling. -/

theorem resampleParticles_length (ps : List ParticleData) (m : ℕ) (h : m < ps.length) :
    (resampleParticles ps m).length = m := by
  rw [resampleParticles, if_pos h]
  simp

/-- The code's `Math.floor(i * (length / maxParticles))` equals the
spec's `floor(i * length / maxParticles)`: the division is exact in ℚ. -/
theorem floor_mul_div_comm (i n m : ℕ) :
    ratFloor ((i : ℚ) * ((n : ℚ) / (m : ℚ))) = ⌊((i * n : ℕ) : ℚ) / (m : ℚ)⌋ := by
  rw [ratFloor_eq_floor]
  congr 1
  push_cast
  ring

theorem resampleParticles_getD (ps : List ParticleData) (m i : ℕ)
    (hm : m < ps.length) (hi : i < m) :
    (resampleParticles ps m).getD i defaultParticle
      = ps.getD (Int.toNat ⌊((i * ps.length : ℕ) : ℚ) / (m : ℚ)⌋) defaultParticle := by
  rw [resampleParticles, if_pos hm, List.getD_eq_getElem?_getD, List.getElem?_map,
    List.getElem?_range hi]
  simp [floor_mul_div_comm]

theorem resample_floor_index_lt (n m i : ℕ) (hm : m < n) (hi : i < m) :
    Int.toNat ⌊((i * n : ℕ) : ℚ) / (m : ℚ)⌋ < n := by
  have hm0 : 0 < m := by omega
  have hn0 : 0 < n := by omega
  have hmQ : (0 : ℚ) < m := by exact_mod_cast hm0
  have hlt : ((i * n : ℕ) : ℚ) / (m : ℚ) < (n : ℚ) := by
    rw [div_lt_iff₀ hmQ]
    push_cast
    have hiQ : (i : ℚ) < m := by exact_mod_cast hi
    have hnQ : (0 : ℚ) < n := by exact_mod_cast hn0
    nlinarith
  have hfl : ⌊((i * n : ℕ) : ℚ) / (m : ℚ)⌋ < (n : ℤ) := Int.floor_lt.mpr (by exact_mod_cast hlt)
  have hfl0 : 0 ≤ ⌊((i * n : ℕ) : ℚ) / (m : ℚ)⌋ := Int.floor_nonneg.mpr (by positivity)
  omega

theorem floor_indices_strictMono (n m i j : ℕ) (hmn : m < n) (hij : i < j) (hj : j < m) :
    ⌊((i * n : ℕ) : ℚ) / (m : ℚ)⌋ < ⌊((j * n : ℕ) : ℚ) / (m : ℚ)⌋ := by
  have hm0 : 0 < m := by omega
  have hmQ : (0 : ℚ) < m := by exact_mod_cast hm0
  have hgt1 : (1 : ℚ) < (n : ℚ) / (m : ℚ) := by
    rw [lt_div_iff₀ hmQ, one_mul]
    exact_mod_cast hmn
  have hle : ((i * n : ℕ) : ℚ) / (m : ℚ) + (n : ℚ) / (m : ℚ) ≤ ((j * n : ℕ) : ℚ) / (m : ℚ) := by
    rw [div_add_div_same]
    apply (div_le_div_iff_of_pos_right hmQ).mpr
    push_cast
    have hijQ : (i : ℚ) + 1 ≤ j := by exact_mod_cast hij
    have hnQ : (0 : ℚ) ≤ n := by positivity
    nlinarith
  have key : (⌊((i * n : ℕ) : ℚ) / (m : ℚ)⌋ : ℚ) + 1 ≤ ((j * n : ℕ) : ℚ) / (m : ℚ) := by
    have h1 : (⌊((i * n : ℕ) : ℚ) / (m : ℚ)⌋ : ℚ) ≤ ((i * n : ℕ) : ℚ) / (m : ℚ) := Int.floor_le _
    linarith
  have h2 : ⌊((i * n : ℕ) : ℚ) / (m : ℚ)⌋ + 1 ≤ ⌊((j * n : ℕ) : ℚ) / (m : ℚ)⌋ :=
    Int.le_floor.mpr (by exact_mod_cast key)
  omega

theorem mem_of_mem_resample (ps : List ParticleData) (m : ℕ) (p : ParticleData)
    (hp : p ∈ resampleParticles ps m) : p ∈ ps := by
  by_cases h : m < ps.length
  · rw [resampleParticles, if_pos h] at hp
    simp only [List.mem_map, List.mem_range] at hp
    obtain ⟨i, hi, hfi⟩ := hp
    have hidx : Int.toNat (ratFloor ((i : ℚ) * ((ps.length : ℚ) / (m : ℚ)))) < ps.length := by
      rw [floor_mul_div_comm]
      exact resample_floor_index_lt ps.length m i h hi
    rw [List.getD_eq_getElem ps defaultParticle hidx] at hfi
    rw [← hfi]
    exact List.getElem_mem hidx
  · rw [resampleParticles, if_neg h] at hp
    exact hp

/-- C2: the `maxParticles` cap on the candidate list (raster-sampled
particles followed by surviving add-edit particles). When the candidate
count `n` exceeds `maxParticles`, the result has exactly `maxParticles`
entries, the `i`-th being the candidate at index `floor(i·n/maxParticles)`
(the code's `floor(i·(n/maxParticles))` agrees, the rational division
being exact), and those indices strictly increase; otherwise the
candidates are returned unmodified. With 16 candidates and
`maxParticles = 5` the result is exactly the candidates at indices
0, 3, 6, 9, 12. -/
theorem extractParticleData_cap (img : ImageData) (cfg : ParticleConfig)
    (mask : Option (List ℕ)) (opts : List OptionalMask) (edits : List ParticleEdit)
    (rand : ℕ → ℚ) (pal : Option (List String)) (cand out : List ParticleData)
    (hpal : paletteE img cfg = .ok pal)
    (hcand : cand = potentialParticles img cfg mask opts edits rand pal)
    (hout : extractParticleData img cfg mask opts edits rand = .ok out) :
    (cfg.maxParticles < cand.length →
      out.length = cfg.maxParticles ∧
      (∀ i : ℕ, i < cfg.maxParticles →
        out.getD i defaultParticle
          = cand.getD (Int.toNat ⌊((i * cand.length : ℕ) : ℚ) / (cfg.maxParticles : ℚ)⌋)
              defaultParticle) ∧
      (∀ i j : ℕ, i < j → j < cfg.maxParticles →
        ⌊((i * cand.length : ℕ) : ℚ) / (cfg.maxParticles : ℚ)⌋
          < ⌊((j * cand.length : ℕ) : ℚ) / (cfg.maxParticles : ℚ)⌋)) ∧
    (cand.length ≤ cfg.maxParticles → out = cand) ∧
    (cand.length = 16 → cfg.maxParticles = 5 →
      out = [cand.getD 0 defaultParticle, cand.getD 3 defaultParticle,
             cand.getD 6 defaultParticle, cand.getD 9 defaultParticle,
             cand.getD 12 defaultParticle]) := by
  have hout' : out = resampleParticles cand cfg.maxParticles := by
    rw [extractParticleData, hpal] at hout
    rw [hcand]
    exact (Except.ok.inj hout).symm
  subst hout'
  refine ⟨fun hlt => ⟨resampleParticles_length cand cfg.maxParticles hlt,
      fun i hi => resampleParticles_getD cand cfg.maxParticles i hlt hi,
      fun i j hij hj => floor_indices_strictMono cand.length cfg.maxParticles i j hlt hij hj⟩,
    fun hle => by rw [resampleParticles, if_neg (not_lt.mpr hle)],
    fun h16 h5 => ?_⟩
  rw [h5, resampleParticles, if_pos (by rw [h16]; norm_num), h16]
  have e0 : Int.toNat (ratFloor (((0 : ℕ) : ℚ) * (((16 : ℕ) : ℚ) / ((5 : ℕ) : ℚ)))) = 0 := by decide
  have e1 : Int.toNat (ratFloor (((1 : ℕ) : ℚ) * (((16 : ℕ) : ℚ) / ((5 : ℕ) : ℚ)))) = 3 := by decide
  have e2 : Int.toNat (ratFloor (((2 : ℕ) : ℚ) * (((16 : ℕ) : ℚ) / ((5 : ℕ) : ℚ)))) = 6 := by decide
  have e3 : Int.toNat (ratFloor (((3 : ℕ) : ℚ) * (((16 : ℕ) : ℚ) / ((5 : ℕ) : ℚ)))) = 9 := by decide
  have e4 : Int.toNat (ratFloor (((4 : ℕ) : ℚ) * (((16 : ℕ) : ℚ) / ((5 : ℕ) : ℚ)))) = 12 := by decide
  rw [show List.range 5 = [0, 1, 2, 3, 4] from rfl]
  simp only [List.map_cons, List.map_nil, e0, e1, e2, e3, e4]

theorem extractParticleData_cap_witness :
    (potentialParticles imgEmpty cfgCapFive Option.none [] editsSixteen (fun _ => 0)
        Option.none).length = 16 ∧
    cfgCapFive.maxParticles = 5 ∧
    resampleParticles
        (potentialParticles imgEmpty cfgCapFive Option.none [] editsSixteen (fun _ => 0)
          Option.none) cfgCapFive.maxParticles
      = [(potentialParticles imgEmpty cfgCapFive Option.none [] editsSixteen (fun _ => 0)
            Option.none).getD 0 defaultParticle,
         (potentialParticles imgEmpty cfgCapFive Option.none [] editsSixteen (fun _ => 0)
            Option.none).getD 3 defaultParticle,
         (potentialParticles imgEmpty cfgCapFive Option.none [] editsSixteen (fun _ => 0)
            Option.none).getD 6 defaultParticle,
         (potentialParticles imgEmpty cfgCapFive Option.none [] editsSixteen (fun _ => 0)
            Option.none).getD 9 defaultParticle,
         (potentialParticles imgEmpty cfgCapFive Option.none [] editsSixteen (fun _ => 0)
            Option.none).getD 12 defaultParticle] :=
  ⟨by decide, rfl,
    (extractParticleData_cap imgEmpty cfgCapFive Option.none [] editsSixteen (fun _ => 0)
      Option.none _ _ rfl rfl (by rfl)).2.2 (by decide) rfl⟩

/-! Membership facts for the extraction pipeline. -/

/-- Each raster-scan particle comes from a `some` result of `sampleAt`. -/
theorem mem_rasterGo (img : ImageData) (cfg : ParticleConfig) (mask : Option (List ℕ))
    (opts : List OptionalMask) (deletes : List ParticleEdit) (pal : Option (List String))
    (rand : ℕ → ℚ) (pairs : List (ℕ × ℕ)) (p : ParticleData) :
    ∀ k, p ∈ rasterGo img cfg mask opts deletes pal rand pairs k →
      ∃ x y rnd, sampleAt img cfg mask opts deletes pal rnd x y = some p := by
  induction pairs with
  | nil => intro k hp; cases hp
  | cons q rest ih =>
    intro k hp
    obtain ⟨x, y⟩ := q
    simp only [rasterGo] at hp
    cases hs : sampleAt img cfg mask opts deletes pal (rand k) x y with
    | none =>
      rw [hs] at hp
      exact ih k hp
    | some r =>
      rw [hs] at hp
      rcases List.mem_cons.mp hp with h | h
      · exact ⟨x, y, rand k, by rw [hs, h]⟩
      · exact ih (k + 1) h

/-- A particle pushed by the raster loop lies at its sample point and
passed the delete-zone check. -/
theorem sampleAt_some_props (img : ImageData) (cfg : ParticleConfig) (mask : Option (List ℕ))
    (opts : List OptionalMask) (deletes : List ParticleEdit) (pal : Option (List String))
    (rnd : ℚ) (x y : ℕ) (p : ParticleData)
    (h : sampleAt img cfg mask opts deletes pal rnd x y = some p) :
    p.x = (x : ℚ) ∧ p.y = (y : ℚ) ∧
      deletes.any (fun e => inDeleteZone e (x : ℚ) (y : ℚ)) = false := by
  simp only [sampleAt] at h
  split at h
  · cases h
  · split at h
    next hdel =>
      cases h
    next hdel =>
      obtain rfl := Option.some.inj h
      refine ⟨rfl, rfl, ?_⟩
      simpa using hdel

/-- Every surviving add-edit particle is unmasked, sits at its edit's
position, and passed the delete-zone check. -/
theorem mem_addedParticles (deletes adds : List ParticleEdit) (p : ParticleData)
    (hp : p ∈ addedParticles deletes adds) :
    p.masked = false ∧ ∃ e ∈ adds, p.x = e.x ∧ p.y = e.y ∧
      deletes.any (fun d => inDeleteZone d e.x e.y) = false := by
  simp only [addedParticles, List.mem_map, List.mem_filter] at hp
  obtain ⟨e, ⟨he, hdel⟩, rfl⟩ := hp
  exact ⟨rfl, e, he, rfl, rfl, by simpa using hdel⟩

/-- Every output particle is a candidate. -/
theorem mem_extract_mem_potential (img : ImageData) (cfg : ParticleConfig)
    (mask : Option (List ℕ)) (opts : List OptionalMask) (edits : List ParticleEdit)
    (rand : ℕ → ℚ) (pal : Option (List String)) (out : List ParticleData) (p : ParticleData)
    (hpal : paletteE img cfg = .ok pal)
    (hout : extractParticleData img cfg mask opts edits rand = .ok out) (hp : p ∈ out) :
    p ∈ potentialParticles img cfg mask opts edits rand pal := by
  rw [extractParticleData, hpal] at hout
  have : out = resampleParticles (potentialParticles img cfg mask opts edits rand pal)
      cfg.maxParticles := (Except.ok.inj hout).symm
  rw [this] at hp
  exact mem_of_mem_resample _ _ _ hp

/-- A point that passed the delete-zone test of edit `e` with stored
radius `r` is not strictly within distance `r` of `e`'s center (for
`r = 0` the effective radius is 15, but no point is within distance 0). -/
theorem not_in_radius_of_inDeleteZone_false (e : ParticleEdit) (px py r : ℚ)
    (hr : e.radius = some r) (h : inDeleteZone e px py = false) :
    ¬ ((px - e.x) * (px - e.x) + (py - e.y) * (py - e.y) < r * r) := by
  intro hcon
  simp only [inDeleteZone] at h
  by_cases hr0 : r = 0
  · subst hr0
    nlinarith [mul_self_nonneg (px - e.x), mul_self_nonneg (py - e.y)]
  · have heff : effectiveRadius e = r := by
      simp only [effectiveRadius, hr]
      exact if_neg hr0
    rw [heff] at h
    exact (of_decide_eq_false h) hcon

/-- C6: for every delete edit with stored radius `r ≥ 0`, no particle
whose position lies strictly within distance `r` of the edit's center
appears in the extraction result — both raster-sampled and add-edit
candidates are filtered against every delete zone, whose effective radius
(`radius || 15`) is at least `r` whenever `r` is the stored radius. -/
theorem extract_delete_zone_exclusion (img : ImageData) (cfg : ParticleConfig)
    (mask : Option (List ℕ)) (opts : List OptionalMask) (edits : List ParticleEdit)
    (rand : ℕ → ℚ) (out : List ParticleData) (e : ParticleEdit) (r : ℚ)
    (he : e ∈ edits) (ht : e.type = EditType.delete) (hr : e.radius = some r) (hr0 : 0 ≤ r)
    (hout : extractParticleData img cfg mask opts edits rand = .ok out) :
    ∀ p ∈ out, ¬ ((p.x - e.x) * (p.x - e.x) + (p.y - e.y) * (p.y - e.y) < r * r) := by
  intro p hp
  obtain ⟨pal, hpal⟩ : ∃ pal, paletteE img cfg = .ok pal := by
    cases hq : paletteE img cfg with
    | error u => rw [extractParticleData, hq] at hout; cases hout
    | ok pal => exact ⟨pal, rfl⟩
  have hmem := mem_extract_mem_potential img cfg mask opts edits rand pal out p hpal hout hp
  have hedel : e ∈ edits.filter (fun e => decide (e.type = EditType.delete)) :=
    List.mem_filter.mpr ⟨he, by simp [ht]⟩
  rw [potentialParticles] at hmem
  rcases List.mem_append.mp hmem with hras | hadd
  · obtain ⟨x, y, rnd, hs⟩ := mem_rasterGo img cfg mask opts _ pal rand _ p 0 hras
    obtain ⟨hx, hy, hdel⟩ := sampleAt_some_props img cfg mask opts _ pal rnd x y p hs
    have hzone : inDeleteZone e (x : ℚ) (y : ℚ) = false := by
      have := List.any_eq_false.mp hdel e hedel
      simpa using this
    rw [hx, hy]
    exact not_in_radius_of_inDeleteZone_false e (x : ℚ) (y : ℚ) r hr hzone
  · obtain ⟨-, a, ha, hx, hy, hdel⟩ := mem_addedParticles _ _ p hadd
    have hzone : inDeleteZone e a.x a.y = false := by
      have := List.any_eq_false.mp hdel e hedel
      simpa using this
    rw [hx, hy]
    exact not_in_radius_of_inDeleteZone_false e a.x a.y r hr hzone

theorem extract_delete_zone_witness :
    (delTwoTwo ∈ [delTwoTwo]) ∧ delTwoTwo.type = EditType.delete ∧
    delTwoTwo.radius = some 1 ∧ ((0 : ℚ) ≤ 1) ∧
    ¬ ((((⟨0, 0, "rgb(200,100,50)", false, Option.none⟩ : ParticleData).x - delTwoTwo.x)
          * ((⟨0, 0, "rgb(200,100,50)", false, Option.none⟩ : ParticleData).x - delTwoTwo.x)
        + ((⟨0, 0, "rgb(200,100,50)", false, Option.none⟩ : ParticleData).y - delTwoTwo.y)
          * ((⟨0, 0, "rgb(200,100,50)", false, Option.none⟩ : ParticleData).y - delTwoTwo.y))
        < 1 * 1) :=
  ⟨List.mem_singleton.mpr rfl, rfl, rfl, by norm_num,
    extract_delete_zone_exclusion imgFour cfgOrig Option.none [] [delTwoTwo] (fun _ => 0) _
      delTwoTwo 1 (List.mem_singleton.mpr rfl) rfl rfl (by norm_num) (by rfl)
      ⟨0, 0, "rgb(200,100,50)", false, Option.none⟩ (by decide)⟩

/-- C10: a particle emitted for an `"add"` edit always carries
`masked = false` (the source pushes the literal `false`, never consulting
the interaction-mask bitmap), so any output particle with `masked = true`
is raster-sampled. -/
theorem extract_added_unmasked (img : ImageData) (cfg : ParticleConfig)
    (mask : Option (List ℕ)) (opts : List OptionalMask) (edits : List ParticleEdit)
    (rand : ℕ → ℚ) (pal : Option (List String)) (out : List ParticleData)
    (hpal : paletteE img cfg = .ok pal)
    (hout : extractParticleData img cfg mask opts edits rand = .ok out) :
    (∀ e : ParticleEdit, (addedParticle e).masked = false) ∧
    (∀ p ∈ out, p.masked = true →
      p ∈ rasterParticles img cfg mask opts
          (edits.filter (fun e => decide (e.type = EditType.delete))) pal rand) := by
  refine ⟨fun e => rfl, fun p hp hm => ?_⟩
  have hmem := mem_extract_mem_potential img cfg mask opts edits rand pal out p hpal hout hp
  rw [potentialParticles] at hmem
  rcases List.mem_append.mp hmem with h | h
  · exact h
  · have := (mem_addedParticles _ _ p h).1
    rw [hm] at this
    cases this

theorem extract_added_unmasked_witness :
    (addedParticle addOneOne).masked = false ∧
    (⟨0, 0, "rgb(10,20,30)", true, Option.none⟩ : ParticleData).masked = true ∧
    (⟨0, 0, "rgb(10,20,30)", true, Option.none⟩ : ParticleData)
      ∈ rasterParticles imgOne cfgOrig (some [0, 0, 0, 0]) []
          ([addOneOne].filter (fun e => decide (e.type = EditType.delete))) Option.none
          (fun _ => 0) :=
  ⟨(extract_added_unmasked imgOne cfgOrig (some [0, 0, 0, 0]) [] [addOneOne] (fun _ => 0)
      Option.none _ rfl (by rfl)).1 addOneOne,
   rfl,
   (extract_added_unmasked imgOne cfgOrig (some [0, 0, 0, 0]) [] [addOneOne] (fun _ => 0)
      Option.none _ rfl (by rfl)).2
     ⟨0, 0, "rgb(10,20,30)", true, Option.none⟩ (by decide) rfl⟩

/-! The adaptive render-quality controller. -/

theorem qualityStep_decided (auto : Bool) (s : QualityState) (f : FrameObs) (q : Bool)
    (h : s.qualityMode = some q) : qualityStep auto s f = s := by
  rw [qualityStep]
  have hn : s.qualityMode.isNone = false := by rw [h]; rfl
  simp [hn]

/-- Once the mode is decided, the whole controller state is frozen. -/
theorem runQuality_decided (auto : Bool) (s : QualityState) (l : List FrameObs) (q : Bool)
    (h : s.qualityMode = some q) : runQuality auto s l = s := by
  induction l with
  | nil => rfl
  | cons o rest ih =>
    rw [runQuality, List.foldl_cons, qualityStep_decided auto s o q h]
    exact ih

theorem qualityStep_undecided (sc n : ℕ) (o : FrameObs) (ha : o.isActive = true)
    (hl : o.lastFrameTimePos = true) :
    qualityStep true ⟨Option.none, sc, n⟩ o =
      if 60 ≤ n + 1 then
        ⟨some (decide ((3 : ℚ)/10 <
            ((if 20 < o.frameTime then sc + 1 else sc : ℕ) : ℚ) / ((n + 1 : ℕ) : ℚ))),
          if 20 < o.frameTime then sc + 1 else sc, n + 1⟩
      else ⟨Option.none, if 20 < o.frameTime then sc + 1 else sc, n + 1⟩ := by
  rw [qualityStep]
  simp [ha, hl]

theorem slowCount_append_singleton (fl : List FrameObs) (o : FrameObs) :
    slowCount (fl ++ [o]) = if 20 < o.frameTime then slowCount fl + 1 else slowCount fl := by
  simp only [slowCount, List.countP_append, List.countP_cons, List.countP_nil]
  by_cases h : 20 < o.frameTime <;> simp [h]

theorem ratio_decide_eq (sl : ℕ) :
    decide ((3 : ℚ)/10 < (sl : ℚ) / ((60 : ℕ) : ℚ)) = decide (18 < sl) := by
  apply decide_eq_decide.mpr
  rw [div_lt_div_iff₀ (by norm_num : (0 : ℚ) < 10) (by norm_num : (0 : ℚ) < ((60 : ℕ) : ℚ))]
  constructor
  · intro h
    have h18 : (18 : ℚ) < (sl : ℚ) := by
      have : ((60 : ℕ) : ℚ) = 60 := by norm_num
      rw [this] at h
      linarith
    exact_mod_cast h18
  · intro h
    have h18 : (18 : ℚ) < (sl : ℚ) := by exact_mod_cast h
    have : ((60 : ℕ) : ℚ) = 60 := by norm_num
    rw [this]
    linarith

/-- Full characterization of the controller run from the initial state:
before 60 observed frames the mode is undecided and the counters track the
observed frames; from the 60th observed frame on, the state is locked to
the decision made over the first 60 observed frames. -/
theorem runQuality_char (l : List FrameObs) :
    runQuality true initQuality l =
      if (l.filter (fun f => isObserved f)).length < 60 then
        ⟨Option.none, slowCount (l.filter (fun f => isObserved f)),
          (l.filter (fun f => isObserved f)).length⟩
      else
        ⟨some (decide (18 < slowCount ((l.filter (fun f => isObserved f)).take 60))),
          slowCount ((l.filter (fun f => isObserved f)).take 60), 60⟩ := by
  induction l using List.reverseRecOn with
  | nil => simp [runQuality, initQuality, slowCount]
  | append_singleton l o ih =>
    have hstep : runQuality true initQuality (l ++ [o])
        = qualityStep true (runQuality true initQuality l) o := by
      rw [runQuality, runQuality, List.foldl_append, List.foldl_cons, List.foldl_nil]
    rw [hstep, ih]
    by_cases ho : isObserved o = true
    · have hao := ho
      rw [isObserved, Bool.and_eq_true] at hao
      obtain ⟨ha, hl⟩ := hao
      have hfilter : (l ++ [o]).filter (fun f => isObserved f)
          = l.filter (fun f => isObserved f) ++ [o] := by
        rw [List.filter_append]
        simp [ho]
      rw [hfilter]
      by_cases hn : (l.filter (fun f => isObserved f)).length < 60
      · rw [if_pos hn, qualityStep_undecided _ _ o ha hl]
        by_cases hn59 : 60 ≤ (l.filter (fun f => isObserved f)).length + 1
        · have hlen : (l.filter (fun f => isObserved f)).length = 59 := by omega
          rw [if_pos hn59]
          have hlen' : ((l.filter (fun f => isObserved f)) ++ [o]).length = 60 := by
            simp [hlen]
          rw [if_neg (by omega : ¬((l.filter (fun f => isObserved f)) ++ [o]).length < 60)]
          have htake : ((l.filter (fun f => isObserved f)) ++ [o]).take 60
              = (l.filter (fun f => isObserved f)) ++ [o] :=
            List.take_of_length_le (le_of_eq hlen')
          rw [htake, slowCount_append_singleton, hlen]
          by_cases hslow : 20 < o.frameTime
          · simp only [if_pos hslow]
            rw [show (59 : ℕ) + 1 = 60 from rfl, ratio_decide_eq]
          · simp only [if_neg hslow]
            rw [show (59 : ℕ) + 1 = 60 from rfl, ratio_decide_eq]
        · rw [if_neg hn59]
          have hlt : ((l.filter (fun f => isObserved f)) ++ [o]).length < 60 := by
            simp only [List.length_append, List.length_cons, List.length_nil]
            omega
          rw [if_pos hlt, slowCount_append_singleton]
          simp only [List.length_append, List.length_cons, List.length_nil]
      · rw [if_neg hn]
        rw [qualityStep_decided true _ o _ rfl]
        have hge : ¬((l.filter (fun f => isObserved f)) ++ [o]).length < 60 := by
          simp only [List.length_append, List.length_cons, List.length_nil]
          omega
        rw [if_neg hge]
        have htake : ((l.filter (fun f => isObserved f)) ++ [o]).take 60
            = (l.filter (fun f => isObserved f)).take 60 :=
          List.take_append_of_le_length (by omega)
        rw [htake]
    · have ho' : isObserved o = false := by
        cases h : isObserved o
        · rfl
        · exact absurd h ho
      have hguard : (o.isActive && o.lastFrameTimePos) = false := by
        rwa [isObserved] at ho'
      have hfilter : (l ++ [o]).filter (fun f => isObserved f)
          = l.filter (fun f => isObserved f) := by
        rw [List.filter_append]
        simp [ho']
      cases hA : o.isActive with
      | true =>
        have hL : o.lastFrameTimePos = false := by
          cases hLc : o.lastFrameTimePos
          · rfl
          · rw [hA, hLc] at hguard
            cases hguard
        rw [hfilter, qualityStep]
        simp [hA, hL]
      | false =>
        rw [hfilter, qualityStep]
        simp [hA]

/-- C5: the adaptive render-quality decision is one-shot per simulation
lifetime. `qualityMode` starts undecided; any run of fewer than 60
observed frames leaves it undecided; a run of exactly 60 observed frames
of activity sets it — to "squares" iff strictly more than 30% of those
frames (that is, more than 18) exceeded 20ms; afterwards any further
frames (slow or not) leave the whole controller state unchanged, the
rendered shape being the configured one unless the squares lock is set.
(Re-initialization resets the state to `initQuality`.) -/
theorem quality_lock_one_shot (cfgShape : ParticleShape) (l post : List FrameObs)
    (hobs : ∀ f ∈ l, isObserved f = true) (hlen : l.length = 60) :
    initQuality.qualityMode = Option.none ∧
    (∀ pre : List FrameObs, pre.length < 60 →
      (runQuality true initQuality pre).qualityMode = Option.none) ∧
    (runQuality true initQuality l).qualityMode = some (decide (18 < slowCount l)) ∧
    runQuality true (runQuality true initQuality l) post = runQuality true initQuality l ∧
    effectiveShape true (some (decide (18 < slowCount l))) cfgShape
      = (if 18 < slowCount l then ParticleShape.square else cfgShape) := by
  have hfl : l.filter (fun f => isObserved f) = l := List.filter_eq_self.mpr hobs
  have hdecided : runQuality true initQuality l
      = ⟨some (decide (18 < slowCount l)), slowCount l, 60⟩ := by
    rw [runQuality_char, hfl, hlen]
    rw [if_neg (by omega)]
    rw [List.take_of_length_le (le_of_eq hlen)]
  refine ⟨rfl, ?_, ?_, ?_, ?_⟩
  · intro pre hpre
    rw [runQuality_char]
    rw [if_pos (lt_of_le_of_lt (List.length_filter_le _ pre) hpre)]
  · rw [hdecided]
  · rw [hdecided]
    exact runQuality_decided true _ post _ rfl
  · by_cases h : 18 < slowCount l
    · simp [effectiveShape, h]
    · simp [effectiveShape, h]

theorem quality_lock_witness :
    (∀ f ∈ List.replicate 60 slowObs, isObserved f = true) ∧
    (List.replicate 60 slowObs).length = 60 ∧
    (runQuality true initQuality (List.replicate 60 slowObs)).qualityMode
      = some (decide (18 < slowCount (List.replicate 60 slowObs))) ∧
    runQuality true (runQuality true initQuality (List.replicate 60 slowObs))
        (List.replicate 60 slowObs)
      = runQuality true initQuality (List.replicate 60 slowObs) :=
  ⟨by decide, by decide,
    (quality_lock_one_shot ParticleShape.circle (List.replicate 60 slowObs)
      (List.replicate 60 slowObs) (by decide) (by decide)).2.2.1,
    (quality_lock_one_shot ParticleShape.circle (List.replicate 60 slowObs)
      (List.replicate 60 slowObs) (by decide) (by decide)).2.2.2.1⟩

/-! The spring-return physics. -/

/-- C4 counterexample: with friction 0.99, returnSpeed 0.2 and
particleSpeed 3 — all inside the ranges documented in
`src/types/index.ts` — a particle released at rest at distance 1
overshoots: after the second tick its squared distance to the origin
exceeds the first tick's, while still far from zero, so the distance does
not strictly decrease tick-over-tick. -/
theorem springTick_distance_can_increase :
    ((0 : ℚ) < 99/100 ∧ (99 : ℚ)/100 < 1) ∧
    distSqToOrigin 0 0 (springTick 0 0 (1/5) 3 (99/100) ⟨1, 0, 0, 0⟩)
      < distSqToOrigin 0 0
          (springTick 0 0 (1/5) 3 (99/100) (springTick 0 0 (1/5) 3 (99/100) ⟨1, 0, 0, 0⟩)) ∧
    (1 : ℚ)/10 < distSqToOrigin 0 0 (springTick 0 0 (1/5) 3 (99/100) ⟨1, 0, 0, 0⟩) := by
  refine ⟨⟨by norm_num, by norm_num⟩, by decide, by decide⟩

/-- One axis of `springTick`: the invariant is preserved and the
displacement shrinks by at least the factor `1 - f·k`. -/
theorem axis_step_bound (k f ox x v : ℚ) (hf0 : 0 < f) (hf1 : f < 1) (hk : 0 < k)
    (hc : f * (1 + k) ≤ 1/2)
    (hI : (0 ≤ x - ox ∧ -(x - ox) ≤ v ∧ v ≤ 0) ∨ (x - ox ≤ 0 ∧ 0 ≤ v ∧ v ≤ -(x - ox))) :
    ((0 ≤ (x + (v + (ox - x) * k) * f) - ox ∧
        -((x + (v + (ox - x) * k) * f) - ox) ≤ (v + (ox - x) * k) * f ∧
        (v + (ox - x) * k) * f ≤ 0) ∨
      ((x + (v + (ox - x) * k) * f) - ox ≤ 0 ∧
        0 ≤ (v + (ox - x) * k) * f ∧
        (v + (ox - x) * k) * f ≤ -((x + (v + (ox - x) * k) * f) - ox))) ∧
    ((x + (v + (ox - x) * k) * f) - ox)^2 ≤ (1 - f * k)^2 * (x - ox)^2 := by
  have hfk0 : 0 < f * k := mul_pos hf0 hk
  have hfk : f * k ≤ 1/2 := by nlinarith
  rcases hI with ⟨hd, hv1, hv2⟩ | ⟨hd, hv1, hv2⟩
  · have hb1 : (v + (ox - x) * k) * f ≤ -(f * k * (x - ox)) := by nlinarith
    have hb2 : -(f * (1 + k) * (x - ox)) ≤ (v + (ox - x) * k) * f := by nlinarith
    have hb3 : f * (1 + k) * (x - ox) ≤ (x - ox) / 2 := by nlinarith
    have hd0 : 0 ≤ (x + (v + (ox - x) * k) * f) - ox := by nlinarith
    have hdub : (x + (v + (ox - x) * k) * f) - ox ≤ (1 - f * k) * (x - ox) := by nlinarith
    refine ⟨Or.inl ⟨hd0, by nlinarith, by nlinarith⟩, ?_⟩
    nlinarith [sq_nonneg ((x + (v + (ox - x) * k) * f) - ox), sq_nonneg (x - ox)]
  · have hb1 : -(f * k * (ox - x)) ≤ (v + (ox - x) * k) * f := by nlinarith
    have hb2 : (v + (ox - x) * k) * f ≤ f * (1 + k) * (ox - x) := by nlinarith
    have hb3 : f * (1 + k) * (ox - x) ≤ (ox - x) / 2 := by nlinarith
    have hd0 : (x + (v + (ox - x) * k) * f) - ox ≤ 0 := by nlinarith
    have hdub : -((x + (v + (ox - x) * k) * f) - ox) ≤ (1 - f * k) * (ox - x) := by nlinarith
    refine ⟨Or.inr ⟨hd0, by nlinarith, by nlinarith⟩, ?_⟩
    nlinarith [sq_nonneg ((x + (v + (ox - x) * k) * f) - ox), sq_nonneg (x - ox)]

theorem springTick_decay (ox oy rS pS f : ℚ) (p : PhysParticle)
    (hf0 : 0 < f) (hf1 : f < 1) (hk : 0 < rS * pS) (hc : f * (1 + rS * pS) ≤ 1/2)
    (hI : SpringInv ox oy p) :
    SpringInv ox oy (springTick ox oy rS pS f p) ∧
    distSqToOrigin ox oy (springTick ox oy rS pS f p)
      ≤ (1 - f * (rS * pS))^2 * distSqToOrigin ox oy p := by
  obtain ⟨hx, hy⟩ := hI
  have hax := axis_step_bound (rS * pS) f ox p.x p.vx hf0 hf1 hk hc hx
  have hay := axis_step_bound (rS * pS) f oy p.y p.vy hf0 hf1 hk hc hy
  constructor
  · exact ⟨hax.1, hay.1⟩
  · simp only [distSqToOrigin, springTick]
    nlinarith [hax.2, hay.2]

theorem springIter_inv (ox oy rS pS f : ℚ) (p0 : PhysParticle)
    (hf0 : 0 < f) (hf1 : f < 1) (hk : 0 < rS * pS) (hc : f * (1 + rS * pS) ≤ 1/2)
    (hI : SpringInv ox oy p0) (n : ℕ) :
    SpringInv ox oy (springIter ox oy rS pS f n p0) ∧
    distSqToOrigin ox oy (springIter ox oy rS pS f n p0)
      ≤ ((1 - f * (rS * pS))^2)^n * distSqToOrigin ox oy p0 := by
  induction n with
  | zero => simpa [springIter] using hI
  | succ n ih =>
    have hit : springIter ox oy rS pS f (n + 1) p0
        = springTick ox oy rS pS f (springIter ox oy rS pS f n p0) := by
      rw [springIter, springIter, Function.iterate_succ_apply']
    have hstep := springTick_decay ox oy rS pS f _ hf0 hf1 hk hc ih.1
    refine ⟨by rw [hit]; exact hstep.1, ?_⟩
    rw [hit]
    calc distSqToOrigin ox oy (springTick ox oy rS pS f (springIter ox oy rS pS f n p0))
        ≤ (1 - f * (rS * pS))^2 * distSqToOrigin ox oy (springIter ox oy rS pS f n p0) :=
          hstep.2
      _ ≤ (1 - f * (rS * pS))^2 * (((1 - f * (rS * pS))^2)^n * distSqToOrigin ox oy p0) :=
          mul_le_mul_of_nonneg_left ih.2 (sq_nonneg _)
      _ = ((1 - f * (rS * pS))^2)^(n + 1) * distSqToOrigin ox oy p0 := by ring

/-- C4 amended: for a particle starting at rest, with friction `f ∈ (0,1)`,
`k := returnSpeed · particleSpeed > 0` and the damping condition
`f·(1+k) ≤ 1/2`, the squared distance to the origin contracts by the
factor `(1-f·k)² < 1` on every tick — in particular it strictly decreases
whenever it is nonzero — and for every `ε > 0` it eventually falls below
`ε`. (Without such a damping bound the claim is false — see the
counterexample — since the documented configuration ranges allow
overshoot.) -/
theorem spring_convergence (ox oy rS pS f x0 y0 : ℚ)
    (hf0 : 0 < f) (hf1 : f < 1) (hk : 0 < rS * pS) (hc : f * (1 + rS * pS) ≤ 1/2) :
    (∀ n : ℕ,
      distSqToOrigin ox oy (springIter ox oy rS pS f (n + 1) ⟨x0, y0, 0, 0⟩)
        ≤ (1 - f * (rS * pS))^2
            * distSqToOrigin ox oy (springIter ox oy rS pS f n ⟨x0, y0, 0, 0⟩)) ∧
    (∀ n : ℕ, 0 < distSqToOrigin ox oy (springIter ox oy rS pS f n ⟨x0, y0, 0, 0⟩) →
      distSqToOrigin ox oy (springIter ox oy rS pS f (n + 1) ⟨x0, y0, 0, 0⟩)
        < distSqToOrigin ox oy (springIter ox oy rS pS f n ⟨x0, y0, 0, 0⟩)) ∧
    (∀ ε : ℚ, 0 < ε →
      ∃ n : ℕ, distSqToOrigin ox oy (springIter ox oy rS pS f n ⟨x0, y0, 0, 0⟩) < ε) := by
  have hI0 : SpringInv ox oy ⟨x0, y0, 0, 0⟩ := by
    constructor
    · rcases le_or_lt 0 (x0 - ox) with h | h
      · exact Or.inl ⟨h, by simp; linarith, le_refl 0⟩
      · exact Or.inr ⟨le_of_lt h, le_refl 0, by simp; linarith⟩
    · rcases le_or_lt 0 (y0 - oy) with h | h
      · exact Or.inl ⟨h, by simp; linarith, le_refl 0⟩
      · exact Or.inr ⟨le_of_lt h, le_refl 0, by simp; linarith⟩
  have hfk0 : 0 < f * (rS * pS) := mul_pos hf0 hk
  have hfk : f * (rS * pS) ≤ 1/2 := by nlinarith
  have hc0 : 0 < 1 - f * (rS * pS) := by linarith
  have hc1 : 1 - f * (rS * pS) < 1 := by linarith
  have hcsq1 : (1 - f * (rS * pS))^2 < 1 := by nlinarith
  have hcsq0 : 0 ≤ (1 - f * (rS * pS))^2 := sq_nonneg _
  have hstep : ∀ n : ℕ,
      distSqToOrigin ox oy (springIter ox oy rS pS f (n + 1) ⟨x0, y0, 0, 0⟩)
        ≤ (1 - f * (rS * pS))^2
            * distSqToOrigin ox oy (springIter ox oy rS pS f n ⟨x0, y0, 0, 0⟩) := by
    intro n
    have hit : springIter ox oy rS pS f (n + 1) ⟨x0, y0, 0, 0⟩
        = springTick ox oy rS pS f (springIter ox oy rS pS f n ⟨x0, y0, 0, 0⟩) := by
      rw [springIter, springIter, Function.iterate_succ_apply']
    rw [hit]
    exact (springTick_decay ox oy rS pS f _ hf0 hf1 hk hc
      (springIter_inv ox oy rS pS f _ hf0 hf1 hk hc hI0 n).1).2
  refine ⟨hstep, ?_, ?_⟩
  · intro n hpos
    calc distSqToOrigin ox oy (springIter ox oy rS pS f (n + 1) ⟨x0, y0, 0, 0⟩)
        ≤ (1 - f * (rS * pS))^2
            * distSqToOrigin ox oy (springIter ox oy rS pS f n ⟨x0, y0, 0, 0⟩) := hstep n
      _ < 1 * distSqToOrigin ox oy (springIter ox oy rS pS f n ⟨x0, y0, 0, 0⟩) :=
          mul_lt_mul_of_pos_right hcsq1 hpos
      _ = distSqToOrigin ox oy (springIter ox oy rS pS f n ⟨x0, y0, 0, 0⟩) := one_mul _
  · intro ε hε
    by_cases hD : distSqToOrigin ox oy (⟨x0, y0, 0, 0⟩ : PhysParticle) ≤ 0
    · refine ⟨0, ?_⟩
      have := (springIter_inv ox oy rS pS f _ hf0 hf1 hk hc hI0 0).2
      simp only [pow_zero, one_mul] at this
      linarith
    · push_neg at hD
      obtain ⟨n, hn⟩ := exists_pow_lt_of_lt_one
        (div_pos hε hD) hcsq1
      refine ⟨n, ?_⟩
      have hbound := (springIter_inv ox oy rS pS f _ hf0 hf1 hk hc hI0 n).2
      have : ((1 - f * (rS * pS))^2)^n * distSqToOrigin ox oy (⟨x0, y0, 0, 0⟩ : PhysParticle)
          < (ε / distSqToOrigin ox oy (⟨x0, y0, 0, 0⟩ : PhysParticle))
            * distSqToOrigin ox oy (⟨x0, y0, 0, 0⟩ : PhysParticle) :=
        mul_lt_mul_of_pos_right hn hD
      rw [div_mul_cancel₀ _ (ne_of_gt hD)] at this
      linarith

theorem spring_convergence_witness :
    ((0 : ℚ) < 2/5) ∧ ((2 : ℚ)/5 < 1) ∧ ((0 : ℚ) < (1/5) * 1) ∧
    ((2 : ℚ)/5 * (1 + (1/5) * 1) ≤ 1/2) ∧
    (∃ n : ℕ, distSqToOrigin 0 0 (springIter 0 0 (1/5) 1 (2/5) n ⟨3, 4, 0, 0⟩) < 1) :=
  ⟨by norm_num, by norm_num, by norm_num, by norm_num,
    (spring_convergence 0 0 (1/5) 1 (2/5) 3 4 (by norm_num) (by norm_num) (by norm_num)
      (by norm_num)).2.2 1 (by norm_num)⟩

/-! The RGB-HSL round trip. -/

theorem jsRound_natCast (n : ℕ) : jsRound ((n : ℚ)) = (n : ℤ) := by
  rw [jsRound, ratFloor_eq_floor,
    show ((n : ℚ) + 1/2) = ((n : ℤ) : ℚ) + 1/2 by push_cast; ring,
    Int.floor_int_add]
  norm_num

theorem hue2rgb_low (p q t : ℚ) (h0 : 0 ≤ t) (h1 : t ≤ 1/6) :
    hue2rgb p q t = p + (q - p) * 6 * t := by
  simp only [hue2rgb]
  rw [if_neg (by linarith : ¬ t < 0), if_neg (by linarith : ¬ t > 1)]
  by_cases h : t < 1/6
  · rw [if_pos h]
  · have ht : t = 1/6 := le_antisymm h1 (not_lt.mp h)
    rw [if_neg h, if_pos (by rw [ht]; norm_num)]
    rw [ht]
    ring

theorem hue2rgb_q (p q t : ℚ) (h0 : 1/6 ≤ t) (h1 : t ≤ 1/2) :
    hue2rgb p q t = q := by
  simp only [hue2rgb]
  rw [if_neg (by linarith : ¬ t < 0), if_neg (by linarith : ¬ t > 1),
    if_neg (by linarith : ¬ t < 1/6)]
  by_cases h : t < 1/2
  · rw [if_pos h]
  · have ht : t = 1/2 := le_antisymm h1 (not_lt.mp h)
    rw [if_neg h, if_pos (by rw [ht]; norm_num)]
    rw [ht]
    ring

theorem hue2rgb_mid (p q t : ℚ) (h0 : 1/2 ≤ t) (h1 : t ≤ 2/3) :
    hue2rgb p q t = p + (q - p) * (2/3 - t) * 6 := by
  simp only [hue2rgb]
  rw [if_neg (by linarith : ¬ t < 0), if_neg (by linarith : ¬ t > 1),
    if_neg (by linarith : ¬ t < 1/6), if_neg (by linarith : ¬ t < 1/2)]
  by_cases h : t < 2/3
  · rw [if_pos h]
  · have ht : t = 2/3 := le_antisymm h1 (not_lt.mp h)
    rw [if_neg h, ht]
    ring

theorem hue2rgb_high (p q t : ℚ) (h0 : 2/3 ≤ t) (h1 : t ≤ 1) :
    hue2rgb p q t = p := by
  simp only [hue2rgb]
  rw [if_neg (by linarith : ¬ t < 0), if_neg (by linarith : ¬ t > 1),
    if_neg (by linarith : ¬ t < 1/6), if_neg (by linarith : ¬ t < 1/2),
    if_neg (by linarith : ¬ t < 2/3)]

theorem hue2rgb_wrap_neg (p q t : ℚ) (h0 : -1 ≤ t) (h1 : t < 0) :
    hue2rgb p q t = hue2rgb p q (t + 1) := by
  simp only [hue2rgb]
  rw [if_pos h1, if_neg (by linarith : ¬ t + 1 < 0)]

theorem hue2rgb_wrap_pos (p q t : ℚ) (h0 : 1 < t) (h1 : t ≤ 2) :
    hue2rgb p q t = hue2rgb p q (t - 1) := by
  simp only [hue2rgb]
  rw [if_neg (by linarith : ¬ t < 0), if_pos (by linarith : t > 1),
    if_neg (by linarith : ¬ t - 1 < 0), if_neg (by linarith : ¬ t - 1 > 1)]

/-- The `q` computed by `hslToRgb` from the `(h,s,l)` of `rgbToHsl` is the
channel maximum. -/
theorem hslToRgb_q_eq_max (M m : ℚ) (h0 : 0 ≤ m) (hlt : m < M) (hM : M ≤ 1) :
    (if (M + m) / 2 < 1/2 then
        ((M + m) / 2) * (1 + (if (M + m) / 2 > 1/2 then (M - m) / (2 - M - m)
          else (M - m) / (M + m)))
      else
        (M + m) / 2 + (if (M + m) / 2 > 1/2 then (M - m) / (2 - M - m)
            else (M - m) / (M + m))
          - ((M + m) / 2) * (if (M + m) / 2 > 1/2 then (M - m) / (2 - M - m)
            else (M - m) / (M + m))) = M := by
  have hM0 : 0 < M := lt_of_le_of_lt h0 hlt
  by_cases hl : (M + m) / 2 > 1/2
  · have hden : 2 - M - m > 0 := by nlinarith
    rw [if_pos hl, if_neg (by linarith : ¬ (M + m) / 2 < 1/2)]
    field_simp
    ring
  · rw [if_neg hl]
    by_cases hl2 : (M + m) / 2 < 1/2
    · have hden : 0 < M + m := by nlinarith
      rw [if_pos hl2]
      field_simp
      ring
    · have hsum : M + m = 1 := by
        have h1 : (M + m) / 2 ≤ 1/2 := not_lt.mp hl
        have h2 : 1/2 ≤ (M + m) / 2 := not_lt.mp hl2
        linarith
      rw [if_neg hl2, hsum]
      field_simp
      nlinarith [hsum]

set_option maxHeartbeats 2000000 in
theorem hsl_roundtrip_exact (r g b : ℕ) (hr : r ≤ 255) (hg : g ≤ 255) (hb : b ≤ 255) :
    hslToRgb (rgbToHsl (r : ℚ) (g : ℚ) (b : ℚ)).1 (rgbToHsl (r : ℚ) (g : ℚ) (b : ℚ)).2.1
      (rgbToHsl (r : ℚ) (g : ℚ) (b : ℚ)).2.2 = ((r : ℤ), (g : ℤ), (b : ℤ)) := by
  obtain ⟨x, hxdef⟩ : ∃ x : ℚ, (r : ℚ)/255 = x := ⟨_, rfl⟩
  obtain ⟨y, hydef⟩ : ∃ y : ℚ, (g : ℚ)/255 = y := ⟨_, rfl⟩
  obtain ⟨z, hzdef⟩ : ∃ z : ℚ, (b : ℚ)/255 = z := ⟨_, rfl⟩
  have hx0 : 0 ≤ x := by rw [← hxdef]; positivity
  have hy0 : 0 ≤ y := by rw [← hydef]; positivity
  have hz0 : 0 ≤ z := by rw [← hzdef]; positivity
  have hx1 : x ≤ 1 := by rw [← hxdef, div_le_one (by norm_num : (0:ℚ) < 255)]; exact_mod_cast hr
  have hy1 : y ≤ 1 := by rw [← hydef, div_le_one (by norm_num : (0:ℚ) < 255)]; exact_mod_cast hg
  have hz1 : z ≤ 1 := by rw [← hzdef, div_le_one (by norm_num : (0:ℚ) < 255)]; exact_mod_cast hb
  have hRx : jsRound (x * 255) = (r : ℤ) := by
    rw [show x * 255 = (r : ℚ) by rw [← hxdef]; field_simp]; exact jsRound_natCast r
  have hRy : jsRound (y * 255) = (g : ℤ) := by
    rw [show y * 255 = (g : ℚ) by rw [← hydef]; field_simp]; exact jsRound_natCast g
  have hRz : jsRound (z * 255) = (b : ℤ) := by
    rw [show z * 255 = (b : ℚ) by rw [← hzdef]; field_simp]; exact jsRound_natCast b
  obtain ⟨H, S, L, hHSL⟩ : ∃ H S L, rgbToHsl (r : ℚ) (g : ℚ) (b : ℚ) = (H, S, L) := ⟨_, _, _, rfl⟩
  rw [show hslToRgb (rgbToHsl (r : ℚ) (g : ℚ) (b : ℚ)).1 (rgbToHsl (r : ℚ) (g : ℚ) (b : ℚ)).2.1
      (rgbToHsl (r : ℚ) (g : ℚ) (b : ℚ)).2.2 = hslToRgb H S L by rw [hHSL]]
  simp only [rgbToHsl] at hHSL
  rw [hxdef, hydef, hzdef] at hHSL
  have hminx : min x (min y z) ≤ x := min_le_left x (min y z)
  have hminy : min x (min y z) ≤ y := le_trans (min_le_right x (min y z)) (min_le_left y z)
  have hminz : min x (min y z) ≤ z := le_trans (min_le_right x (min y z)) (min_le_right y z)
  have hmaxx : x ≤ max x (max y z) := le_max_left x (max y z)
  have hmaxy : y ≤ max x (max y z) := le_trans (le_max_left y z) (le_max_right x (max y z))
  have hmaxz : z ≤ max x (max y z) := le_trans (le_max_right y z) (le_max_right x (max y z))
  by_cases hMm : max x (max y z) = min x (min y z)
  · -- all channels equal: s = 0, gray path
    rw [if_pos hMm] at hHSL
    have hxy : x = y := by linarith
    have hxz : x = z := by linarith
    have hrg : r = g := by
      have hq : (r : ℚ) = (g : ℚ) := by
        have h := hxy
        rw [← hxdef, ← hydef, div_eq_div_iff (by norm_num) (by norm_num)] at h
        have h255 : (255 : ℚ) ≠ 0 := by norm_num
        exact mul_right_cancel₀ h255 h
      exact_mod_cast hq
    have hrb : r = b := by
      have hq : (r : ℚ) = (b : ℚ) := by
        have h := hxz
        rw [← hxdef, ← hzdef, div_eq_div_iff (by norm_num) (by norm_num)] at h
        have h255 : (255 : ℚ) ≠ 0 := by norm_num
        exact mul_right_cancel₀ h255 h
      exact_mod_cast hq
    simp only [Prod.mk.injEq] at hHSL
    obtain ⟨hH, hS, hL⟩ := hHSL
    subst hH
    subst hS
    subst hL
    simp only [hslToRgb, if_pos rfl]
    have hLx : (max x (max y z) + min x (min y z)) / 2 = x := by
      rw [← hxy, ← hxz]
      simp [max_self, min_self]
    rw [hLx, hRx, ← hrg, ← hrb]
    simp
  · -- max ≠ min: the chromatic path
    rw [if_neg hMm] at hHSL
    have hminmax : min x (min y z) < max x (max y z) :=
      lt_of_le_of_ne (hminx.trans hmaxx) (Ne.symm hMm)
    by_cases hMx : max x (max y z) = x
    · by_cases hyz : y < z
      · -- B2: max = x, y < z, min = y
        have hzx : z ≤ x := hMx ▸ hmaxz
        have hyx : y ≤ x := hMx ▸ hmaxy
        have hmin : min x (min y z) = y := by
          rw [min_eq_left hyz.le, min_eq_right hyx]
        have hylt : y < x := by
          have := hminmax
          rw [hmin, hMx] at this
          exact this
        rw [if_pos hMx, if_pos hyz, hMx, hmin] at hHSL
        simp only [Prod.mk.injEq] at hHSL
        obtain ⟨hH, hS, hL⟩ := hHSL
        subst hH
        subst hS
        subst hL
        simp only [hslToRgb]
        have hd : 0 < x - y := by linarith
        have hd' : x - y ≠ 0 := ne_of_gt hd
        have hs0 : (if (x + y) / 2 > 1/2 then (x - y) / (2 - x - y) else (x - y) / (x + y)) ≠ 0 := by
          by_cases hl : (x + y) / 2 > 1/2
          · rw [if_pos hl]
            have hden : 0 < 2 - x - y := by linarith
            exact ne_of_gt (div_pos hd hden)
          · rw [if_neg hl]
            have hden : 0 < x + y := by linarith
            exact ne_of_gt (div_pos hd hden)
        rw [if_neg hs0, hslToRgb_q_eq_max x y hy0 hylt hx1,
          show 2 * ((x + y) / 2) - x = y from by ring]
        set u := (y - z) / (x - y) with hu
        have hu0 : -1 ≤ u := (le_div_iff₀ hd).mpr (by linarith)
        have hu1 : u < 0 := div_neg_of_neg_of_pos (by linarith) hd
        simp only [Prod.mk.injEq]
        refine ⟨?_, ?_, ?_⟩
        · rw [hue2rgb_wrap_pos y x ((u + 6) / 6 + 1/3) (by linarith) (by linarith),
            hue2rgb_q y x ((u + 6) / 6 + 1/3 - 1) (by linarith) (by linarith)]
          exact hRx
        · rw [hue2rgb_high y x ((u + 6) / 6) (by linarith) (by linarith)]
          exact hRy
        · rw [hue2rgb_mid y x ((u + 6) / 6 - 1/3) (by linarith) (by linarith)]
          have hval : y + (x - y) * (2/3 - ((u + 6) / 6 - 1/3)) * 6 = z := by
            rw [hu]
            field_simp
            ring
          rw [hval]
          exact hRz
      · -- B1: max = x, z ≤ y, min = z
        have hzy : z ≤ y := not_lt.mp hyz
        have hzx : z ≤ x := hMx ▸ hmaxz
        have hyx : y ≤ x := hMx ▸ hmaxy
        have hmin : min x (min y z) = z := by
          rw [min_eq_right hzy, min_eq_right hzx]
        have hzlt : z < x := by
          have := hminmax
          rw [hmin, hMx] at this
          exact this
        rw [if_pos hMx, if_neg hyz, hMx, hmin] at hHSL
        simp only [Prod.mk.injEq] at hHSL
        obtain ⟨hH, hS, hL⟩ := hHSL
        subst hH
        subst hS
        subst hL
        simp only [hslToRgb]
        have hd : 0 < x - z := by linarith
        have hs0 : (if (x + z) / 2 > 1/2 then (x - z) / (2 - x - z) else (x - z) / (x + z)) ≠ 0 := by
          by_cases hl : (x + z) / 2 > 1/2
          · rw [if_pos hl]
            have hden : 0 < 2 - x - z := by linarith
            exact ne_of_gt (div_pos hd hden)
          · rw [if_neg hl]
            have hden : 0 < x + z := by linarith
            exact ne_of_gt (div_pos hd hden)
        rw [if_neg hs0, hslToRgb_q_eq_max x z hz0 hzlt hx1,
          show 2 * ((x + z) / 2) - x = z from by ring]
        set u := (y - z) / (x - z) with hu
        have hu0 : 0 ≤ u := div_nonneg (by linarith) hd.le
        have hu1 : u ≤ 1 := (div_le_one hd).mpr (by linarith)
        simp only [Prod.mk.injEq]
        refine ⟨?_, ?_, ?_⟩
        · rw [hue2rgb_q z x ((u + 0) / 6 + 1/3) (by linarith) (by linarith)]
          exact hRx
        · rw [hue2rgb_low z x ((u + 0) / 6) (by linarith) (by linarith)]
          have hval : z + (x - z) * 6 * ((u + 0) / 6) = y := by
            rw [hu]
            field_simp
          rw [hval]
          exact hRy
        · rw [hue2rgb_wrap_neg z x ((u + 0) / 6 - 1/3) (by linarith) (by linarith),
            hue2rgb_high z x ((u + 0) / 6 - 1/3 + 1) (by linarith) (by linarith)]
          exact hRz
    · by_cases hMy : max x (max y z) = y
      · -- B3: max = y
        have hxy : x ≤ y := hMy ▸ hmaxx
        have hzy : z ≤ y := hMy ▸ hmaxz
        by_cases hxz : x ≤ z
        · -- B3a: min = x
          have hmin : min x (min y z) = x := by
            rw [min_eq_right hzy, min_eq_left hxz]
          have hxlt : x < y := by
            have := hminmax
            rw [hmin, hMy] at this
            exact this
          rw [if_neg hMx, if_pos hMy, hMy, hmin] at hHSL
          simp only [Prod.mk.injEq] at hHSL
          obtain ⟨hH, hS, hL⟩ := hHSL
          subst hH
          subst hS
          subst hL
          simp only [hslToRgb]
          have hd : 0 < y - x := by linarith
          have hd' : y - x ≠ 0 := ne_of_gt hd
          have hs0 : (if (y + x) / 2 > 1/2 then (y - x) / (2 - y - x) else (y - x) / (y + x)) ≠ 0 := by
            by_cases hl : (y + x) / 2 > 1/2
            · rw [if_pos hl]
              have hden : 0 < 2 - y - x := by linarith
              exact ne_of_gt (div_pos hd hden)
            · rw [if_neg hl]
              have hden : 0 < y + x := by linarith
              exact ne_of_gt (div_pos hd hden)
          rw [if_neg hs0, hslToRgb_q_eq_max y x hx0 hxlt hy1,
            show 2 * ((y + x) / 2) - y = x from by ring]
          set u := (z - x) / (y - x) with hu
          have hu0 : 0 ≤ u := div_nonneg (by linarith) hd.le
          have hu1 : u ≤ 1 := (div_le_one hd).mpr (by linarith)
          simp only [Prod.mk.injEq]
          refine ⟨?_, ?_, ?_⟩
          · rw [hue2rgb_high x y ((u + 2) / 6 + 1/3) (by linarith) (by linarith)]
            exact hRx
          · rw [hue2rgb_q x y ((u + 2) / 6) (by linarith) (by linarith)]
            exact hRy
          · rw [hue2rgb_low x y ((u + 2) / 6 - 1/3) (by linarith) (by linarith)]
            have hval : x + (y - x) * 6 * ((u + 2) / 6 - 1/3) = z := by
              rw [hu]
              field_simp
              ring
            rw [hval]
            exact hRz
        · -- B3b: min = z
          have hzx : z < x := lt_of_not_le hxz
          have hmin : min x (min y z) = z := by
            rw [min_eq_right hzy, min_eq_right hzx.le]
          have hzlt : z < y := by
            have := hminmax
            rw [hmin, hMy] at this
            exact this
          rw [if_neg hMx, if_pos hMy, hMy, hmin] at hHSL
          simp only [Prod.mk.injEq] at hHSL
          obtain ⟨hH, hS, hL⟩ := hHSL
          subst hH
          subst hS
          subst hL
          simp only [hslToRgb]
          have hd : 0 < y - z := by linarith
          have hd' : y - z ≠ 0 := ne_of_gt hd
          have hs0 : (if (y + z) / 2 > 1/2 then (y - z) / (2 - y - z) else (y - z) / (y + z)) ≠ 0 := by
            by_cases hl : (y + z) / 2 > 1/2
            · rw [if_pos hl]
              have hden : 0 < 2 - y - z := by linarith
              exact ne_of_gt (div_pos hd hden)
            · rw [if_neg hl]
              have hden : 0 < y + z := by linarith
              exact ne_of_gt (div_pos hd hden)
          rw [if_neg hs0, hslToRgb_q_eq_max y z hz0 hzlt hy1,
            show 2 * ((y + z) / 2) - y = z from by ring]
          set u := (z - x) / (y - z) with hu
          have hu0 : -1 ≤ u := (le_div_iff₀ hd).mpr (by linarith)
          have hu1 : u < 0 := div_neg_of_neg_of_pos (by linarith) hd
          simp only [Prod.mk.injEq]
          refine ⟨?_, ?_, ?_⟩
          · rw [hue2rgb_mid z y ((u + 2) / 6 + 1/3) (by linarith) (by linarith)]
            have hval : z + (y - z) * (2/3 - ((u + 2) / 6 + 1/3)) * 6 = x := by
              rw [hu]
              field_simp
              ring
            rw [hval]
            exact hRx
          · rw [hue2rgb_q z y ((u + 2) / 6) (by linarith) (by linarith)]
            exact hRy
          · rw [hue2rgb_wrap_neg z y ((u + 2) / 6 - 1/3) (by linarith) (by linarith),
              hue2rgb_high z y ((u + 2) / 6 - 1/3 + 1) (by linarith) (by linarith)]
            exact hRz
      · -- B4: max = z
        have hMz : max x (max y z) = z := by
          rcases max_choice x (max y z) with h | h
          · exact absurd h hMx
          · rcases max_choice y z with h2 | h2
            · exact absurd (h.trans h2) hMy
            · exact h.trans h2
        have hxz : x ≤ z := hMz ▸ hmaxx
        have hyz2 : y ≤ z := hMz ▸ hmaxy
        by_cases hyx : y ≤ x
        · -- B4a: min = y
          have hmin : min x (min y z) = y := by
            rw [min_eq_left hyz2, min_eq_right hyx]
          have hylt : y < z := by
            have := hminmax
            rw [hmin, hMz] at this
            exact this
          rw [if_neg hMx, if_neg hMy, hMz, hmin] at hHSL
          simp only [Prod.mk.injEq] at hHSL
          obtain ⟨hH, hS, hL⟩ := hHSL
          subst hH
          subst hS
          subst hL
          simp only [hslToRgb]
          have hd : 0 < z - y := by linarith
          have hd' : z - y ≠ 0 := ne_of_gt hd
          have hs0 : (if (z + y) / 2 > 1/2 then (z - y) / (2 - z - y) else (z - y) / (z + y)) ≠ 0 := by
            by_cases hl : (z + y) / 2 > 1/2
            · rw [if_pos hl]
              have hden : 0 < 2 - z - y := by linarith
              exact ne_of_gt (div_pos hd hden)
            · rw [if_neg hl]
              have hden : 0 < z + y := by linarith
              exact ne_of_gt (div_pos hd hden)
          rw [if_neg hs0, hslToRgb_q_eq_max z y hy0 hylt hz1,
            show 2 * ((z + y) / 2) - z = y from by ring]
          set u := (x - y) / (z - y) with hu
          have hu0 : 0 ≤ u := div_nonneg (by linarith) hd.le
          have hu1 : u ≤ 1 := (div_le_one hd).mpr (by linarith)
          simp only [Prod.mk.injEq]
          refine ⟨?_, ?_, ?_⟩
          · rcases eq_or_lt_of_le hu0 with hu0e | hu0s
            · -- u = 0: hue lands exactly on t = 1, x = y
              have hxy0 : x = y := by
                have h2 : (x - y) / (z - y) = 0 := by rw [← hu, ← hu0e]
                rcases div_eq_zero_iff.mp h2 with h3 | h3
                · linarith
                · exact absurd h3 hd'
              rw [hue2rgb_high y z ((u + 4) / 6 + 1/3) (by linarith) (by linarith)]
              rw [← hxy0]
              exact hRx
            · rw [hue2rgb_wrap_pos y z ((u + 4) / 6 + 1/3) (by linarith) (by linarith),
                hue2rgb_low y z ((u + 4) / 6 + 1/3 - 1) (by linarith) (by linarith)]
              have hval : y + (z - y) * 6 * ((u + 4) / 6 + 1/3 - 1) = x := by
                rw [hu]
                field_simp
                ring
              rw [hval]
              exact hRx
          · rw [hue2rgb_high y z ((u + 4) / 6) (by linarith) (by linarith)]
            exact hRy
          · rw [hue2rgb_q y z ((u + 4) / 6 - 1/3) (by linarith) (by linarith)]
            exact hRz
        · -- B4b: min = x
          have hxy2 : x < y := lt_of_not_le hyx
          have hmin : min x (min y z) = x := by
            rw [min_eq_left hyz2, min_eq_left hxy2.le]
          have hxlt2 : x < z := by
            have := hminmax
            rw [hmin, hMz] at this
            exact this
          rw [if_neg hMx, if_neg hMy, hMz, hmin] at hHSL
          simp only [Prod.mk.injEq] at hHSL
          obtain ⟨hH, hS, hL⟩ := hHSL
          subst hH
          subst hS
          subst hL
          simp only [hslToRgb]
          have hd : 0 < z - x := by linarith
          have hd' : z - x ≠ 0 := ne_of_gt hd
          have hs0 : (if (z + x) / 2 > 1/2 then (z - x) / (2 - z - x) else (z - x) / (z + x)) ≠ 0 := by
            by_cases hl : (z + x) / 2 > 1/2
            · rw [if_pos hl]
              have hden : 0 < 2 - z - x := by linarith
              exact ne_of_gt (div_pos hd hden)
            · rw [if_neg hl]
              have hden : 0 < z + x := by linarith
              exact ne_of_gt (div_pos hd hden)
          rw [if_neg hs0, hslToRgb_q_eq_max z x hx0 hxlt2 hz1,
            show 2 * ((z + x) / 2) - z = x from by ring]
          set u := (x - y) / (z - x) with hu
          have hu0 : -1 ≤ u := (le_div_iff₀ hd).mpr (by linarith)
          have hu1 : u < 0 := div_neg_of_neg_of_pos (by linarith) hd
          simp only [Prod.mk.injEq]
          refine ⟨?_, ?_, ?_⟩
          · rw [hue2rgb_high x z ((u + 4) / 6 + 1/3) (by linarith) (by linarith)]
            exact hRx
          · rw [hue2rgb_mid x z ((u + 4) / 6) (by linarith) (by linarith)]
            have hval : x + (z - x) * (2/3 - (u + 4) / 6) * 6 = y := by
              rw [hu]
              field_simp
              ring
            rw [hval]
            exact hRy
          · rw [hue2rgb_q x z ((u + 4) / 6 - 1/3) (by linarith) (by linarith)]
            exact hRz

/-- C7: for every 8-bit triple `(r, g, b)`, composing `hslToRgb` after
`rgbToHsl` returns channels each within 1 of the input — in fact the
round trip is exact, since `hslToRgb`'s `q`/`p` recover the channel
maximum and minimum and each hue segment reproduces the middle channel. -/
theorem hsl_roundtrip_within_one (r g b : ℕ) (hr : r ≤ 255) (hg : g ≤ 255) (hb : b ≤ 255) :
    ((hslToRgb (rgbToHsl (r : ℚ) (g : ℚ) (b : ℚ)).1 (rgbToHsl (r : ℚ) (g : ℚ) (b : ℚ)).2.1
        (rgbToHsl (r : ℚ) (g : ℚ) (b : ℚ)).2.2).1 - (r : ℤ)).natAbs ≤ 1 ∧
    ((hslToRgb (rgbToHsl (r : ℚ) (g : ℚ) (b : ℚ)).1 (rgbToHsl (r : ℚ) (g : ℚ) (b : ℚ)).2.1
        (rgbToHsl (r : ℚ) (g : ℚ) (b : ℚ)).2.2).2.1 - (g : ℤ)).natAbs ≤ 1 ∧
    ((hslToRgb (rgbToHsl (r : ℚ) (g : ℚ) (b : ℚ)).1 (rgbToHsl (r : ℚ) (g : ℚ) (b : ℚ)).2.1
        (rgbToHsl (r : ℚ) (g : ℚ) (b : ℚ)).2.2).2.2 - (b : ℤ)).natAbs ≤ 1 := by
  rw [hsl_roundtrip_exact r g b hr hg hb]
  simp

theorem hsl_roundtrip_within_one_witness :
    ((hslToRgb (rgbToHsl ((12 : ℕ) : ℚ) ((200 : ℕ) : ℚ) ((7 : ℕ) : ℚ)).1
        (rgbToHsl ((12 : ℕ) : ℚ) ((200 : ℕ) : ℚ) ((7 : ℕ) : ℚ)).2.1
        (rgbToHsl ((12 : ℕ) : ℚ) ((200 : ℕ) : ℚ) ((7 : ℕ) : ℚ)).2.2).1 - ((12 : ℕ) : ℤ)).natAbs ≤ 1 ∧
    ((hslToRgb (rgbToHsl ((12 : ℕ) : ℚ) ((200 : ℕ) : ℚ) ((7 : ℕ) : ℚ)).1
        (rgbToHsl ((12 : ℕ) : ℚ) ((200 : ℕ) : ℚ) ((7 : ℕ) : ℚ)).2.1
        (rgbToHsl ((12 : ℕ) : ℚ) ((200 : ℕ) : ℚ) ((7 : ℕ) : ℚ)).2.2).2.1 - ((200 : ℕ) : ℤ)).natAbs ≤ 1 ∧
    ((hslToRgb (rgbToHsl ((12 : ℕ) : ℚ) ((200 : ℕ) : ℚ) ((7 : ℕ) : ℚ)).1
        (rgbToHsl ((12 : ℕ) : ℚ) ((200 : ℕ) : ℚ) ((7 : ℕ) : ℚ)).2.1
        (rgbToHsl ((12 : ℕ) : ℚ) ((200 : ℕ) : ℚ) ((7 : ℕ) : ℚ)).2.2).2.2 - ((7 : ℕ) : ℤ)).natAbs ≤ 1 :=
  hsl_roundtrip_within_one 12 200 7 (by decide) (by decide) (by decide)

end
